import Mathlib

/-
Verification of the placesmanager repository core logic:
the PowerShell command channel (queueing, timeout, process-close handling),
the result classifier in PowerShellService.finishCommand, the Key:Value
entity parser in PowerShellService.parsePlacesOutput, and the
GET /api/places/refresh reconciliation handler backed by MemStorage.

Each definition is a shallow embedding of the corresponding TypeScript
function; comments name the source location.
-/

namespace PlacesMgr

/-! ## String utilities (JS semantics: trim, toLowerCase, includes) -/

/-- Whitespace characters removed by JS String.prototype.trim (the ones
relevant to this code base). -/
def isWsChar (c : Char) : Bool :=
  c == ' ' || c == '\t' || c == '\n' || c == '\r'

/-- Trim on char lists: drop whitespace from both ends. -/
def jsTrimL (l : List Char) : List Char :=
  ((l.dropWhile isWsChar).reverse.dropWhile isWsChar).reverse

/-- Model of JS String.prototype.trim. -/
def jsTrim (s : String) : String :=
  ⟨jsTrimL s.data⟩

/-- Substring occurrence on char lists: true iff needle occurs contiguously. -/
def containsSubL (needle : List Char) : List Char → Bool
  | [] => needle.isEmpty
  | c :: rest => needle.isPrefixOf (c :: rest) || containsSubL needle rest

/-- Model of JS String.prototype.includes. -/
def containsSub (hay needle : String) : Bool :=
  containsSubL needle.data hay.data

/-- Model of JS String.prototype.toLowerCase (the strings this code base
compares are ASCII, where the two agree). -/
def jsToLower (s : String) : String :=
  ⟨s.data.map Char.toLower⟩

/-! ## Result Classifier

Shallow embedding of the exit-code detection in
PowerShellService.finishCommand (src/test-room.js lines 709-798).
-/

/-- Hard-failure phrases checked against the lowercased error text
(src/test-room.js lines 723-736, `errorPatterns`). -/
def errorPatterns : List String :=
  [ "authentication failed"
  , "unauthorized"
  , "access denied"
  , "invalid credentials"
  , "connection failed"
  , "timeout"
  , "network error"
  , "module not found"
  , "command not found"
  , "parameter cannot be resolved"
  , "cannot bind parameter"
  , "you must call the connect-exchangeonline cmdlet before calling any other cmdlets" ]

/-- Success phrases checked against the lowercased output for
Connect-ExchangeOnline commands (src/test-room.js lines 743-753). -/
def connectSuccessPatterns : List String :=
  [ "connected to exchange online"
  , "authentication completed"
  , "successfully connected"
  , "welcome to exchange online"
  , "connected successfully"
  , "authentication successful"
  , "exchange online powershell"
  , "connected to microsoft exchange online"
  , "you are now connected to exchange online" ]

/-- Exit-code classification of a finished command
(src/test-room.js lines 715-798).  Returns the JS `exitCode` value. -/
def classifyExitCode (command output error : String) : Nat :=
  let errorLower := jsToLower error
  let outputLower := jsToLower output
  let hasErrorPattern := errorPatterns.any (fun p => containsSub errorLower p)
  if containsSub (jsToLower command) "connect-exchangeonline" then
    let hasSuccessPattern := connectSuccessPatterns.any (fun p => containsSub outputLower p)
    let hasOutput := decide ((jsTrim output).length > 0)
    let hasNonCriticalError := (error != "") && (jsTrim error != "") && !hasErrorPattern
    if hasSuccessPattern then 0
    else if hasErrorPattern then 1
    else if hasOutput && !hasNonCriticalError then 0
    else if hasErrorPattern then 1
    else 0
  else
    if hasErrorPattern then 1
    else if (error != "") && (jsTrim error != "") && !(containsSub errorLower "warning") then 1
    else 0

/-! ## Command Channel

Shallow embedding of the persistent-process command channel of
PowerShellService (src/test-room.js lines 631-847): the FIFO command
queue, dispatch via processQueue, the per-command timeout callback, the
process close handler, and finishCommand.  External effects are made
explicit state: stdin writes are recorded in a trace, promise
resolution/rejection is recorded in a settled list, and the setTimeout
scheduling a restart is recorded as a pending delay.
-/

/-- A queued command (the resolve/reject closures are represented by the
caller id under which outcomes are recorded). -/
structure QueuedCommand where
  callerId : Nat
  command : String
deriving DecidableEq, Repr

/-- How a pending caller was notified. -/
inductive Outcome where
  /-- resolve with a PowerShellResult (exit code, trimmed output, trimmed error) -/
  | resolvedResult (exitCode : Nat) (output : String) (error : String)
  /-- reject with the PowerShell command timed out error -/
  | timedOut
deriving DecidableEq, Repr

/-- Channel state: fields of the PowerShellService singleton plus explicit
effect traces. -/
structure ChannelState where
  commandQueue : List QueuedCommand
  isProcessing : Bool
  isInitialized : Bool
  hasProcess : Bool
  buffer : String
  errorBuffer : String
  /-- trace of strings written to the process stdin, in order -/
  writes : List String
  /-- trace of caller notifications, in order -/
  settled : List (Nat × Outcome)
  /-- backoff delay of a scheduled startPersistentProcess restart, if any -/
  restartDelayMs : Option Nat
deriving DecidableEq, Repr

/-- The sentinel marker (src/test-room.js line 648, END_MARKER). -/
def endMarker : String := "__END_OF_COMMAND__"

/-- A single-quote character, built by code point to keep the source plain. -/
def singleQuote : String := String.singleton (Char.ofNat 39)

/-- The text written to stdin when dispatching a command
(src/test-room.js line 846). -/
def dispatchText (c : String) : String :=
  c ++ "\n" ++ "Write-Output " ++ singleQuote ++ endMarker ++ singleQuote ++ "\n"

/-- processQueue (src/test-room.js lines 841-847): if idle, a process
exists and the queue is non-empty, mark processing and write the head
command followed by the sentinel directive.  The head is NOT removed. -/
def processQueue (st : ChannelState) : ChannelState :=
  if st.isProcessing || !st.hasProcess || st.commandQueue.isEmpty then st
  else
    match st.commandQueue with
    | [] => st
    | cmd :: _ =>
      { st with isProcessing := true
              , writes := st.writes ++ [dispatchText cmd.command] }

/-- The setTimeout callback installed for command c in executeCommand
(src/test-room.js lines 830-834): reject the command's promise with a
timeout error, clear isProcessing, and call processQueue.  Note that the
queue itself is not modified. -/
def onCommandTimeout (c : QueuedCommand) (st : ChannelState) : ChannelState :=
  processQueue { st with settled := st.settled ++ [(c.callerId, Outcome.timedOut)]
                       , isProcessing := false }

/-- The close handler installed in startPersistentProcess
(src/test-room.js lines 684-688): mark uninitialized and schedule a
restart after a fixed 1000 ms backoff.  Queued commands are not touched. -/
def onProcessClose (st : ChannelState) : ChannelState :=
  { st with isInitialized := false, restartDelayMs := some 1000 }

/-- finishCommand (src/test-room.js lines 709-808): shift the head of the
queue, classify, resolve the caller with the trimmed output and error,
clear isProcessing and dispatch the next command. -/
def finishCommand (output error : String) (st : ChannelState) : ChannelState :=
  match st.commandQueue with
  | [] => st
  | cmd :: rest =>
    processQueue
      { st with commandQueue := rest
              , settled := st.settled ++
                  [(cmd.callerId,
                    Outcome.resolvedResult (classifyExitCode cmd.command output error)
                      (jsTrim output) (jsTrim error))]
              , isProcessing := false }

/-! ## Entity Parser

Shallow embedding of the non-JSON branch of
PowerShellService.parsePlacesOutput (src/test-room.js lines 2322-2362):
strip ANSI escape sequences, split into lines, accumulate Key: Value
pairs into the current record, flush when the PlaceId key appears while
the current record is non-empty, and flush the final record at end of
input.  (The surrounding demo-mode and JSON branches, and the
buildPlacesHierarchy presentation step applied to the resulting record
list, are outside this claim's record-boundary logic.)

Strings are processed as char lists; a JS object literal accumulating
key/value pairs is modelled as an association list written in insertion
order, with JS assignment semantics (objSet).
-/

/-- Characters allowed inside an ANSI CSI parameter (the regex
\x1B\[[0-9;]*m of src/test-room.js line 2323). -/
def ansiParamChar (c : Char) : Bool := c.isDigit || c == ';'

/-- When the scanner sits on character c with tail rest: if c starts an
ANSI escape sequence ESC [ params m, return the tail after the sequence,
else none (the regex scanner then keeps c and moves one character on). -/
def ansiSkip (c : Char) (rest : List Char) : Option (List Char) :=
  if c == '\x1b' then
    match rest with
    | '[' :: rest2 =>
      match rest2.drop (rest2.takeWhile ansiParamChar).length with
      | 'm' :: tl => some tl
      | _ => none
    | _ => none
  else none

/-- Fuelled left-to-right scanner removing ANSI sequences; one unit of
fuel is consumed per step and each step consumes at least one input
character, so fuel = input length suffices. -/
def stripAnsiF : Nat → List Char → List Char
  | 0, l => l
  | _ + 1, [] => []
  | fuel + 1, c :: rest =>
    match ansiSkip c rest with
    | some tl => stripAnsiF fuel tl
    | none => c :: stripAnsiF fuel rest

/-- Model of cleanOutput = output.replace(ansiRegex, ...): remove every
occurrence of ESC [ params m, scanning left to right. -/
def stripAnsi (l : List Char) : List Char := stripAnsiF l.length l

/-- Split a char list on a separator character (model of JS split). -/
def splitOnCharL (sep : Char) : List Char → List (List Char)
  | [] => [[]]
  | x :: xs =>
    if x == sep then [] :: splitOnCharL sep xs
    else
      match splitOnCharL sep xs with
      | [] => [[x]]
      | y :: ys => (x :: y) :: ys

/-- Join char lists with a separator character (model of JS Array.join). -/
def joinWithChar (sep : Char) : List (List Char) → List Char
  | [] => []
  | [x] => x
  | x :: y :: ys => x ++ sep :: joinWithChar sep (y :: ys)

/-- A parsed record: a JS object as an insertion-ordered association
list; values are strings or null (ParentId normalization). -/
abbrev Obj := List (List Char × Option (List Char))

/-- JS property assignment: overwrite in place if the key exists,
otherwise append. -/
def objSet (o : Obj) (k : List Char) (v : Option (List Char)) : Obj :=
  if o.any fun p => p.1 == k then
    o.map fun p => if p.1 == k then (k, v) else p
  else o ++ [(k, v)]

/-- The record-boundary key (the external identifier field). -/
def pidKey : List Char := "PlaceId".data

/-- The parent-reference key, normalized to null when empty. -/
def parentKey : List Char := "ParentId".data

/-- The line loop of parsePlacesOutput (src/test-room.js lines 2332-2362):
cur is currentPlace; returns the places array including the final flush. -/
def kvGo (cur : Obj) : List (List Char) → List Obj
  | [] => if cur.isEmpty then [] else [cur]
  | line :: rest =>
    let t := jsTrimL line
    if t.isEmpty then kvGo cur rest
    else if t.contains ':' then
      let parts := splitOnCharL ':' t
      let key := parts.headD []
      let value := jsTrimL (joinWithChar ':' parts.tail)
      let cleanKey := jsTrimL key
      let flushed : List Obj := if cleanKey == pidKey && !cur.isEmpty then [cur] else []
      let cur1 : Obj := if cleanKey == pidKey && !cur.isEmpty then [] else cur
      let cur2 : Obj :=
        if cleanKey == parentKey then
          objSet cur1 cleanKey (if (jsTrimL value).isEmpty then none else some (jsTrimL value))
        else objSet cur1 cleanKey (some value)
      flushed ++ kvGo cur2 rest
    else kvGo cur rest

/-- The non-JSON branch of parsePlacesOutput, from the raw output string
to the list of parsed records. -/
def parsePlacesText (output : String) : List Obj :=
  kvGo [] (splitOnCharL '\n' (stripAnsi output.data))

/-- A well-behaved token of a rendered Key: Value input: non-empty,
stable under trimming, and free of the structural characters (colon,
newline, escape). -/
def goodTok (t : List Char) : Prop :=
  t ≠ [] ∧ jsTrimL t = t ∧ ∀ c ∈ t, c ≠ ':' ∧ c ≠ '\n' ∧ c ≠ '\x1b'

/-- A well-behaved key/value pair whose key is not the boundary key. -/
def goodPair (p : List Char × List Char) : Prop :=
  goodTok p.1 ∧ goodTok p.2 ∧ p.1 ≠ pidKey

/-- Render one key/value pair as a source line. -/
def pairLine (p : List Char × List Char) : List Char :=
  p.1 ++ ':' :: ' ' :: p.2

/-- A record block: the external identifier value followed by the other
key/value pairs. -/
def goodBlock (b : List Char × List (List Char × List Char)) : Prop :=
  goodTok b.1 ∧ (∀ p ∈ b.2, goodPair p) ∧ (b.2.map Prod.fst).Nodup

/-- Render a block: its PlaceId line followed by its pair lines. -/
def blockLines (b : List Char × List (List Char × List Char)) : List (List Char) :=
  (pidKey ++ ':' :: ' ' :: b.1) :: b.2.map pairLine

/-- The record the parser should produce for a block. -/
def blockObj (b : List Char × List (List Char × List Char)) : Obj :=
  (pidKey, some b.1) :: b.2.map fun p => (p.1, some p.2)

/-! ## Mirror data model and MemStorage

Shallow embedding of the local mirror rows (shared schema, as constructed
by MemStorage.createX in src/unnamed/part_001 lines 2036-2257) and the
storage operations the refresh handler uses.  Each Map of MemStorage is
modelled as a list of rows in insertion order, keyed by the numeric id;
createdAt timestamps are omitted (no claim mentions them).
-/

structure Building where
  id : Nat
  placeId : String
  name : String
  description : Option String
  countryOrRegion : Option String
  state : Option String
  city : Option String
  street : Option String
  postalCode : Option String
  phone : Option String
  isActive : Option Bool
deriving DecidableEq, Repr

structure Floor where
  id : Nat
  placeId : String
  buildingId : Option Nat
  parentPlaceId : Option String
  name : String
  description : Option String
  displayName : Option String
deriving DecidableEq, Repr

structure Section where
  id : Nat
  placeId : String
  floorId : Option Nat
  parentPlaceId : Option String
  name : String
  description : Option String
  displayName : Option String
deriving DecidableEq, Repr

structure Desk where
  id : Nat
  placeId : String
  sectionId : Option Nat
  parentPlaceId : Option String
  name : String
  type : String
  emailAddress : Option String
  capacity : Option Int
  isBookable : Option Bool
deriving DecidableEq, Repr

structure Room where
  id : Nat
  placeId : String
  sectionId : Option Nat
  floorId : Option Nat
  parentPlaceId : Option String
  name : String
  type : String
  emailAddress : Option String
  capacity : Option Int
  isBookable : Option Bool
deriving DecidableEq, Repr

/-- MemStorage state: the five mirror tables plus the shared id counter. -/
structure Storage where
  currentId : Nat
  buildings : List Building
  floors : List Floor
  sections : List Section
  desks : List Desk
  rooms : List Room
deriving DecidableEq, Repr

/-- A parsed place record as consumed by the refresh handler (the fields
it reads from buildingsData and friends).  TypeTag stands for the source
field named Type, which Lean reserves. -/
structure PlaceRecord where
  PlaceId : String
  DisplayName : Option String
  Name : Option String
  Description : Option String
  ParentId : Option String
  TypeTag : Option String
  EmailAddress : Option String
  Capacity : Option Int
  IsBookable : Option Bool
  CountryOrRegion : Option String
  State : Option String
  City : Option String
  Street : Option String
  PostalCode : Option String
  Phone : Option String
deriving DecidableEq, Repr

/-- A place record with only the identifier and parent set, as the
concrete scenarios use (other fields absent, i.e. undefined in JS). -/
def mkRec (pid : String) (parent : Option String) : PlaceRecord :=
  { PlaceId := pid, DisplayName := none, Name := none, Description := none
  , ParentId := parent, TypeTag := none, EmailAddress := none, Capacity := none
  , IsBookable := none, CountryOrRegion := none, State := none, City := none
  , Street := none, PostalCode := none, Phone := none }

/-- JS truthiness for an optional string: the empty string counts as
absent (x || y chains). -/
def strVal : Option String → Option String
  | none => none
  | some s => if s == "" then none else some s

/-- JS a || b || dflt over optional strings. -/
def orStr (a b : Option String) (dflt : String) : String :=
  match strVal a with
  | some s => s
  | none =>
    match strVal b with
    | some s => s
    | none => dflt

/-- MemStorage.getBuildingByPlaceId: first row whose placeId matches. -/
def getBuildingByPlaceId (st : Storage) (pid : String) : Option Building :=
  st.buildings.find? fun b => b.placeId == pid

/-- Lookup with a possibly-null key, as the handler passes ParentId
directly (a null key matches nothing since placeId is never null). -/
def getBuildingByParent (st : Storage) (pid : Option String) : Option Building :=
  match pid with
  | none => none
  | some p => getBuildingByPlaceId st p

def getFloorByPlaceId (st : Storage) (pid : String) : Option Floor :=
  st.floors.find? fun f => f.placeId == pid

def getFloorByParent (st : Storage) (pid : Option String) : Option Floor :=
  match pid with
  | none => none
  | some p => getFloorByPlaceId st p

def getSectionByPlaceId (st : Storage) (pid : String) : Option Section :=
  st.sections.find? fun s => s.placeId == pid

def getSectionByParent (st : Storage) (pid : Option String) : Option Section :=
  match pid with
  | none => none
  | some p => getSectionByPlaceId st p

def getDeskByPlaceId (st : Storage) (pid : String) : Option Desk :=
  st.desks.find? fun d => d.placeId == pid

def getRoomByPlaceId (st : Storage) (pid : String) : Option Room :=
  st.rooms.find? fun r => r.placeId == pid

/-- MemStorage.deleteBuilding: Map.delete by id (order preserved). -/
def deleteBuildingSt (st : Storage) (i : Nat) : Storage :=
  { st with buildings := st.buildings.filter fun b => !(b.id == i) }

def deleteFloorSt (st : Storage) (i : Nat) : Storage :=
  { st with floors := st.floors.filter fun f => !(f.id == i) }

def deleteSectionSt (st : Storage) (i : Nat) : Storage :=
  { st with sections := st.sections.filter fun s => !(s.id == i) }

def deleteDeskSt (st : Storage) (i : Nat) : Storage :=
  { st with desks := st.desks.filter fun d => !(d.id == i) }

def deleteRoomSt (st : Storage) (i : Nat) : Storage :=
  { st with rooms := st.rooms.filter fun r => !(r.id == i) }

/-- storage.createBuilding with the insert object built by the refresh
handler (part_001 lines 709-720 with MemStorage.createBuilding). -/
def createBuildingSt (st : Storage) (d : PlaceRecord) : Storage :=
  { st with
    currentId := st.currentId + 1
    buildings := st.buildings ++
      [{ id := st.currentId
       , placeId := d.PlaceId
       , name := orStr d.DisplayName d.Name "Unknown Building"
       , description := strVal d.Description
       , countryOrRegion := strVal d.CountryOrRegion
       , state := strVal d.State
       , city := strVal d.City
       , street := strVal d.Street
       , postalCode := strVal d.PostalCode
       , phone := strVal d.Phone
       , isActive := some true }] }

/-- storage.createFloor with the insert object of part_001 lines 733-739;
bid is the resolved parent building id. -/
def createFloorSt (st : Storage) (d : PlaceRecord) (bid : Nat) : Storage :=
  { st with
    currentId := st.currentId + 1
    floors := st.floors ++
      [{ id := st.currentId
       , placeId := d.PlaceId
       , buildingId := some bid
       , parentPlaceId := d.ParentId
       , name := orStr d.DisplayName d.Name "Unknown Floor"
       , description := strVal d.Description
       , displayName := none }] }

/-- storage.createSection with the insert object of part_001 lines 755-761. -/
def createSectionSt (st : Storage) (d : PlaceRecord) (fid : Nat) : Storage :=
  { st with
    currentId := st.currentId + 1
    sections := st.sections ++
      [{ id := st.currentId
       , placeId := d.PlaceId
       , floorId := some fid
       , parentPlaceId := d.ParentId
       , name := orStr d.DisplayName d.Name "Unknown Section"
       , description := strVal d.Description
       , displayName := none }] }

/-- storage.createDesk with the insert object of part_001 lines 777-785. -/
def createDeskSt (st : Storage) (d : PlaceRecord) (sid : Nat) : Storage :=
  { st with
    currentId := st.currentId + 1
    desks := st.desks ++
      [{ id := st.currentId
       , placeId := d.PlaceId
       , sectionId := some sid
       , parentPlaceId := d.ParentId
       , name := orStr d.DisplayName d.Name "Unknown Desk"
       , type := (strVal d.TypeTag).getD "Desk"
       , emailAddress := none
       , capacity := d.Capacity
       , isBookable := some (d.IsBookable.getD false) }] }

/-- storage.createRoom with the insert objects of part_001 lines 803-844;
the three call sites differ only in sectionId and floorId. -/
def createRoomSt (st : Storage) (d : PlaceRecord)
    (sid : Option Nat) (fid : Option Nat) : Storage :=
  { st with
    currentId := st.currentId + 1
    rooms := st.rooms ++
      [{ id := st.currentId
       , placeId := d.PlaceId
       , sectionId := sid
       , floorId := fid
       , parentPlaceId := d.ParentId
       , name := orStr d.DisplayName d.Name "Unknown Room"
       , type := (strVal d.TypeTag).getD "Room"
       , emailAddress := strVal d.EmailAddress
       , capacity := d.Capacity
       , isBookable := some (d.IsBookable.getD false) }] }

/-! ## The refresh reconciliation passes (part_001 lines 597-890) -/

/-- One mutation issued against the mirror during a refresh. -/
inductive Op where
  | delRoom (id : Nat)
  | delDesk (id : Nat)
  | delSection (id : Nat)
  | delFloor (id : Nat)
  | delBuilding (id : Nat)
  | addBuilding (id : Nat)
  | addFloor (id : Nat)
  | addSection (id : Nat)
  | addDesk (id : Nat)
  | addRoom (id : Nat)
deriving DecidableEq, Repr

/-- The per-type created/removed counters of the refresh summary. -/
structure Counts where
  buildingsCreated : Nat
  floorsCreated : Nat
  sectionsCreated : Nat
  desksCreated : Nat
  roomsCreated : Nat
  buildingsRemoved : Nat
  floorsRemoved : Nat
  sectionsRemoved : Nat
  desksRemoved : Nat
  roomsRemoved : Nat
deriving DecidableEq, Repr

def zeroCounts : Counts := ⟨0, 0, 0, 0, 0, 0, 0, 0, 0, 0⟩

/-- Whether an operation is a deletion. -/
def isDelOp : Op → Bool
  | Op.delRoom _ | Op.delDesk _ | Op.delSection _ | Op.delFloor _
  | Op.delBuilding _ => true
  | _ => false

/-- Stage rank of an operation in the refresh: deletions are ranked
child-to-parent (rooms and desks before sections before floors before
buildings), creations after all deletions. -/
def opStageRank : Op → Nat
  | Op.delRoom _ => 0
  | Op.delDesk _ => 1
  | Op.delSection _ => 2
  | Op.delFloor _ => 3
  | Op.delBuilding _ => 4
  | Op.addBuilding _ => 5
  | Op.addFloor _ => 6
  | Op.addSection _ => 7
  | Op.addDesk _ => 8
  | Op.addRoom _ => 9

/-- existingFloors (line 640): floors reachable from the current
buildings by buildingId. -/
def enumFloors (st : Storage) : List Floor :=
  st.buildings.flatMap fun b => st.floors.filter fun f => f.buildingId == some b.id

/-- existingSections (line 641): sections reachable from existingFloors. -/
def enumSections (st : Storage) : List Section :=
  (enumFloors st).flatMap fun f => st.sections.filter fun s => s.floorId == some f.id

/-- existingDesks (line 642): desks reachable from existingSections. -/
def enumDesks (st : Storage) : List Desk :=
  (enumSections st).flatMap fun s => st.desks.filter fun d => d.sectionId == some s.id

/-- existingRooms (lines 643-646): rooms reachable from existingSections
plus rooms reachable from existingFloors (a room can occur in both). -/
def enumRooms (st : Storage) : List Room :=
  ((enumSections st).flatMap fun s => st.rooms.filter fun r => r.sectionId == some s.id)
  ++ ((enumFloors st).flatMap fun f => st.rooms.filter fun r => r.floorId == some f.id)

/-- Deletion pass over the room snapshot (lines 663-668): delete every
snapshot room whose placeId is not among the fresh ids. -/
def delRoomsPass (ids : List String) (st : Storage) :
    List Room → Storage × List Op × Nat
  | [] => (st, [], 0)
  | r :: rest =>
    if ids.contains r.placeId then delRoomsPass ids st rest
    else
      let res := delRoomsPass ids (deleteRoomSt st r.id) rest
      (res.1, Op.delRoom r.id :: res.2.1, res.2.2 + 1)

/-- Deletion pass over the desk snapshot (lines 671-676). -/
def delDesksPass (ids : List String) (st : Storage) :
    List Desk → Storage × List Op × Nat
  | [] => (st, [], 0)
  | d :: rest =>
    if ids.contains d.placeId then delDesksPass ids st rest
    else
      let res := delDesksPass ids (deleteDeskSt st d.id) rest
      (res.1, Op.delDesk d.id :: res.2.1, res.2.2 + 1)

/-- Deletion pass over the section snapshot (lines 679-684). -/
def delSectionsPass (ids : List String) (st : Storage) :
    List Section → Storage × List Op × Nat
  | [] => (st, [], 0)
  | s :: rest =>
    if ids.contains s.placeId then delSectionsPass ids st rest
    else
      let res := delSectionsPass ids (deleteSectionSt st s.id) rest
      (res.1, Op.delSection s.id :: res.2.1, res.2.2 + 1)

/-- Deletion pass over the floor snapshot (lines 687-692). -/
def delFloorsPass (ids : List String) (st : Storage) :
    List Floor → Storage × List Op × Nat
  | [] => (st, [], 0)
  | f :: rest =>
    if ids.contains f.placeId then delFloorsPass ids st rest
    else
      let res := delFloorsPass ids (deleteFloorSt st f.id) rest
      (res.1, Op.delFloor f.id :: res.2.1, res.2.2 + 1)

/-- Deletion pass over the building snapshot (lines 695-700). -/
def delBuildingsPass (ids : List String) (st : Storage) :
    List Building → Storage × List Op × Nat
  | [] => (st, [], 0)
  | b :: rest =>
    if ids.contains b.placeId then delBuildingsPass ids st rest
    else
      let res := delBuildingsPass ids (deleteBuildingSt st b.id) rest
      (res.1, Op.delBuilding b.id :: res.2.1, res.2.2 + 1)

/-- Building creation pass (lines 705-723): create each fresh building
not already mirrored by placeId. -/
def bPass (st : Storage) : List PlaceRecord → Storage × List Op × Nat
  | [] => (st, [], 0)
  | d :: rest =>
    match getBuildingByPlaceId st d.PlaceId with
    | some _ => bPass st rest
    | none =>
      let res := bPass (createBuildingSt st d) rest
      (res.1, Op.addBuilding st.currentId :: res.2.1, res.2.2 + 1)

/-- Floor creation pass (lines 727-746): create a fresh floor only when
its ParentId resolves to a mirrored building; otherwise skip with a
warning. -/
def fPass (st : Storage) : List PlaceRecord → Storage × List Op × Nat
  | [] => (st, [], 0)
  | d :: rest =>
    match getFloorByPlaceId st d.PlaceId with
    | some _ => fPass st rest
    | none =>
      match getBuildingByParent st d.ParentId with
      | some b =>
        let res := fPass (createFloorSt st d b.id) rest
        (res.1, Op.addFloor st.currentId :: res.2.1, res.2.2 + 1)
      | none => fPass st rest

/-- Section creation pass (lines 749-768): parent is a Floor. -/
def sPass (st : Storage) : List PlaceRecord → Storage × List Op × Nat
  | [] => (st, [], 0)
  | d :: rest =>
    match getSectionByPlaceId st d.PlaceId with
    | some _ => sPass st rest
    | none =>
      match getFloorByParent st d.ParentId with
      | some f =>
        let res := sPass (createSectionSt st d f.id) rest
        (res.1, Op.addSection st.currentId :: res.2.1, res.2.2 + 1)
      | none => sPass st rest

/-- Desk creation pass (lines 771-792): parent is a Section. -/
def dPass (st : Storage) : List PlaceRecord → Storage × List Op × Nat
  | [] => (st, [], 0)
  | d :: rest =>
    match getDeskByPlaceId st d.PlaceId with
    | some _ => dPass st rest
    | none =>
      match getSectionByParent st d.ParentId with
      | some s =>
        let res := dPass (createDeskSt st d s.id) rest
        (res.1, Op.addDesk st.currentId :: res.2.1, res.2.2 + 1)
      | none => dPass st rest

/-- Room creation pass (lines 795-850): parent may be a Section (room
inherits the section's floorId), else a Floor, else the room is created
as an orphan with null parents.  Note the source only increments
roomsCreated in the section and orphan branches, not in the floor
branch. -/
def rPass (st : Storage) : List PlaceRecord → Storage × List Op × Nat
  | [] => (st, [], 0)
  | d :: rest =>
    match getRoomByPlaceId st d.PlaceId with
    | some _ => rPass st rest
    | none =>
      match getSectionByParent st d.ParentId with
      | some s =>
        let res := rPass (createRoomSt st d (some s.id) s.floorId) rest
        (res.1, Op.addRoom st.currentId :: res.2.1, res.2.2 + 1)
      | none =>
        match getFloorByParent st d.ParentId with
        | some f =>
          let res := rPass (createRoomSt st d none (some f.id)) rest
          (res.1, Op.addRoom st.currentId :: res.2.1, res.2.2)
        | none =>
          let res := rPass (createRoomSt st d none none) rest
          (res.1, Op.addRoom st.currentId :: res.2.1, res.2.2 + 1)

/-- A fetch-and-parse result for one entity type: the channel exit code
and the parsed records of getPlaces output. -/
structure FetchOutcome where
  exitCode : Nat
  records : List PlaceRecord
deriving DecidableEq, Repr

/-- Result of one refresh: the new mirror, the summary counters and the
ordered mutation trace. -/
structure RefreshOut where
  storage : Storage
  counts : Counts
  trace : List Op
deriving DecidableEq, Repr

/-- The GET /api/places/refresh handler (part_001 lines 597-890) from the
five fetch results onward: abort when the Building fetch failed; parse
failed subordinate fetches as empty lists; snapshot the reachable rows;
run the five deletion passes (rooms, desks, sections, floors, buildings)
against the fresh id sets; then the five creation passes (buildings,
floors, sections, desks, rooms). -/
def refresh (bF fF sF dF rF : FetchOutcome) (st : Storage) : Option RefreshOut :=
  if bF.exitCode != 0 then none
  else
    let buildingsData := bF.records
    let floorsData := if fF.exitCode == 0 then fF.records else []
    let sectionsData := if sF.exitCode == 0 then sF.records else []
    let desksData := if dF.exitCode == 0 then dF.records else []
    let roomsData := if rF.exitCode == 0 then rF.records else []
    let bIds := buildingsData.map (·.PlaceId)
    let fIds := floorsData.map (·.PlaceId)
    let sIds := sectionsData.map (·.PlaceId)
    let dIds := desksData.map (·.PlaceId)
    let rIds := roomsData.map (·.PlaceId)
    let exB := st.buildings
    let exF := enumFloors st
    let exS := enumSections st
    let exD := enumDesks st
    let exR := enumRooms st
    let resR := delRoomsPass rIds st exR
    let resD := delDesksPass dIds resR.1 exD
    let resS := delSectionsPass sIds resD.1 exS
    let resF := delFloorsPass fIds resS.1 exF
    let resB := delBuildingsPass bIds resF.1 exB
    let resCB := bPass resB.1 buildingsData
    let resCF := fPass resCB.1 floorsData
    let resCS := sPass resCF.1 sectionsData
    let resCD := dPass resCS.1 desksData
    let resCR := rPass resCD.1 roomsData
    some
      { storage := resCR.1
      , counts :=
        { buildingsCreated := resCB.2.2
        , floorsCreated := resCF.2.2
        , sectionsCreated := resCS.2.2
        , desksCreated := resCD.2.2
        , roomsCreated := resCR.2.2
        , buildingsRemoved := resB.2.2
        , floorsRemoved := resF.2.2
        , sectionsRemoved := resS.2.2
        , desksRemoved := resD.2.2
        , roomsRemoved := resR.2.2 }
      , trace := resR.2.1 ++ resD.2.1 ++ resS.2.1 ++ resF.2.1 ++ resB.2.1
          ++ resCB.2.1 ++ resCF.2.1 ++ resCS.2.1 ++ resCD.2.1 ++ resCR.2.1 }

/-! ## Concrete refresh scenarios -/

/-- An empty mirror. -/
def emptyStorage : Storage :=
  { currentId := 1, buildings := [], floors := [], sections := [], desks := []
  , rooms := [] }

/-- A successful fetch returning no entities. -/
def okEmpty : FetchOutcome := ⟨0, []⟩

def bRow1 : Building :=
  { id := 1, placeId := "b1", name := "B1", description := none
  , countryOrRegion := none, state := none, city := none, street := none
  , postalCode := none, phone := none, isActive := some true }

def fRow1 : Floor :=
  { id := 2, placeId := "f1", buildingId := some 1, parentPlaceId := some "b1"
  , name := "F1", description := none, displayName := none }

def sRow1 : Section :=
  { id := 3, placeId := "s1", floorId := some 2, parentPlaceId := some "f1"
  , name := "S1", description := none, displayName := none }

def dRow1 : Desk :=
  { id := 4, placeId := "d1", sectionId := some 3, parentPlaceId := some "s1"
  , name := "D1", type := "Desk", emailAddress := none, capacity := none
  , isBookable := some true }

def rRow1 : Room :=
  { id := 5, placeId := "r1", sectionId := some 3, floorId := some 2
  , parentPlaceId := some "s1", name := "R1", type := "Room"
  , emailAddress := none, capacity := none, isBookable := some true }

/-- Mirror with one building and one floor under it. -/
def storageBF : Storage :=
  { currentId := 3, buildings := [bRow1], floors := [fRow1]
  , sections := [], desks := [], rooms := [] }

/-- Mirror with a full Building-Floor-Section-Desk chain plus a Room. -/
def storageChain : Storage :=
  { currentId := 6, buildings := [bRow1], floors := [fRow1]
  , sections := [sRow1], desks := [dRow1], rooms := [rRow1] }

/-- The refresh output on storageChain when every fetch succeeds with zero
entities: everything reachable is deleted, child types first (the room is
enumerated twice, once via its section and once via its floor, so it is
counted twice). -/
def outChain : RefreshOut :=
  { storage := { currentId := 6, buildings := [], floors := [], sections := []
               , desks := [], rooms := [] }
  , counts := { buildingsCreated := 0, floorsCreated := 0, sectionsCreated := 0
              , desksCreated := 0, roomsCreated := 0, buildingsRemoved := 1
              , floorsRemoved := 1, sectionsRemoved := 1, desksRemoved := 1
              , roomsRemoved := 2 }
  , trace := [Op.delRoom 5, Op.delRoom 5, Op.delDesk 4, Op.delSection 3,
      Op.delFloor 2, Op.delBuilding 1] }

/-- Foreign keys stay below the id counter: true of every state MemStorage
builds, since parent ids are taken from existing rows and currentId only
grows. -/
def wfStorage (st : Storage) : Prop :=
  (∀ f ∈ st.floors, ∀ k ∈ f.buildingId, k < st.currentId)
  ∧ (∀ s ∈ st.sections, ∀ k ∈ s.floorId, k < st.currentId)
  ∧ (∀ d ∈ st.desks, ∀ k ∈ d.sectionId, k < st.currentId)
  ∧ (∀ r ∈ st.rooms, (∀ k ∈ r.sectionId, k < st.currentId)
      ∧ ∀ k ∈ r.floorId, k < st.currentId)

/-- At most one row per placeId in every mirror table. -/
def uniquePids (st : Storage) : Prop :=
  st.buildings.Pairwise (fun a b => a.placeId ≠ b.placeId)
  ∧ st.floors.Pairwise (fun a b => a.placeId ≠ b.placeId)
  ∧ st.sections.Pairwise (fun a b => a.placeId ≠ b.placeId)
  ∧ st.desks.Pairwise (fun a b => a.placeId ≠ b.placeId)
  ∧ st.rooms.Pairwise (fun a b => a.placeId ≠ b.placeId)

/-- The refresh output on the empty mirror when the Room fetch returns the
same externalId twice: a single orphan room row is created (the second
record finds the first by placeId and is skipped). -/
def outDupRooms : RefreshOut :=
  { storage :=
    { currentId := 2, buildings := [], floors := [], sections := [], desks := []
    , rooms := [{ id := 1, placeId := "rr", sectionId := none, floorId := none
                , parentPlaceId := none, name := "Unknown Room", type := "Room"
                , emailAddress := none, capacity := none
                , isBookable := some false }] }
  , counts := { buildingsCreated := 0, floorsCreated := 0, sectionsCreated := 0
              , desksCreated := 0, roomsCreated := 1, buildingsRemoved := 0
              , floorsRemoved := 0, sectionsRemoved := 0, desksRemoved := 0
              , roomsRemoved := 0 }
  , trace := [Op.addRoom 1] }

/-- Concrete channel state used for the C3 and C7 scenarios: two queued
commands, the first in flight (its dispatch already written). -/
def chanScenario : ChannelState :=
  { commandQueue := [⟨0, "Get-PlaceA"⟩, ⟨1, "Get-PlaceB"⟩]
  , isProcessing := true
  , isInitialized := true
  , hasProcess := true
  , buffer := ""
  , errorBuffer := ""
  , writes := [dispatchText "Get-PlaceA"]
  , settled := []
  , restartDelayMs := none }

/-- Fetch outcomes of the concrete idempotence scenario: two buildings, a
resolving and a dangling floor, one section, a resolving and a dangling
desk, and rooms under a section, under a floor, and orphaned. -/
def idemBF : FetchOutcome := ⟨0, [mkRec "b1" none, mkRec "b2" none]⟩

def idemFF : FetchOutcome :=
  ⟨0, [mkRec "f1" (some "b1"), mkRec "fx" (some "nope")]⟩

def idemSF : FetchOutcome := ⟨0, [mkRec "s1" (some "f1")]⟩

def idemDF : FetchOutcome :=
  ⟨0, [mkRec "d1" (some "s1"), mkRec "dx" (some "zzz")]⟩

def idemRF : FetchOutcome :=
  ⟨0, [mkRec "r1" (some "s1"), mkRec "r2" (some "f1"), mkRec "r3" (some "qqq")]⟩

/-- The output of the first refresh run of the idempotence scenario,
starting from the empty mirror. -/
def idemOut : RefreshOut :=
  (refresh idemBF idemFF idemSF idemDF idemRF emptyStorage).getD
    ⟨emptyStorage, zeroCounts, []⟩

end PlacesMgr

namespace PlacesMgr

/-! ## Basic theorems about the classifier -/

theorem jsTrim_empty : jsTrim "" = "" := rfl

theorem jsTrim_ne_empty_of_ne {s : String} (h : jsTrim s ≠ "") : s ≠ "" := by
  intro hs
  subst hs
  exact h rfl

theorem bne_and_trim_bne (err : String) :
    ((err != "") && (jsTrim err != "")) = (jsTrim err != "") := by
  by_cases h : err = ""
  · subst h; rfl
  · have : (err != "") = true := by simp [bne_iff_ne, h]
    rw [this, Bool.true_and]

theorem access_denied_mem_errorPatterns {err : String}
    (h : containsSub (jsToLower err) "access denied" = true) :
    (errorPatterns.any fun p => containsSub (jsToLower err) p) = true := by
  apply List.any_eq_true.mpr
  exact ⟨"access denied", by simp [errorPatterns], h⟩

/-- C6: for every non-connect command result, the classifier returns
success (exit code 0) by default, and failure (exit code 1) exactly when
either the error text contains one of the fixed hard-failure phrases
(case-insensitive substring match), or the error text is non-empty after
trimming and does not contain the substring warning (checked
case-insensitively, on the lowercased error text). -/
theorem classifier_nonconnect_spec (cmd out err : String)
    (h : containsSub (jsToLower cmd) "connect-exchangeonline" = false) :
    classifyExitCode cmd out err =
      if (errorPatterns.any fun p => containsSub (jsToLower err) p)
          || ((jsTrim err != "") && !(containsSub (jsToLower err) "warning"))
      then 1 else 0 := by
  by_cases he : err = ""
  · subst he
    cases hEP : (errorPatterns.any fun p => containsSub (jsToLower "") p) <;>
      simp [classifyExitCode, h, hEP, jsTrim_empty]
  · have h1 : (err != "") = true := by simp [bne_iff_ne, he]
    cases hEP : (errorPatterns.any fun p => containsSub (jsToLower err) p) <;>
      cases hT : (jsTrim err != "") <;>
        cases hW : containsSub (jsToLower err) "warning" <;>
          simp [classifyExitCode, h, h1, hEP, hT, hW]

/-- C6 witness: concrete evaluation of the non-connect classifier rule. -/
theorem classifier_nonconnect_spec_witness :
    classifyExitCode "Get-Mailbox" "out" "Access Denied" = 1 :=
  (classifier_nonconnect_spec "Get-Mailbox" "out" "Access Denied" (by decide)).trans
    (by decide)

/-- C5 counterexample: for a Connect-ExchangeOnline command with non-empty
output and error text Access Denied, the classifier returns failure
(exit code 1), not success as the claim states. -/
theorem classifier_connect_access_denied_counterexample :
    classifyExitCode "Connect-ExchangeOnline" "hello" "Access Denied" = 1 := by
  decide

/-- C5 amended: error text containing the phrase Access Denied
(case-insensitive) classifies a non-connect command as failure; for a
Connect-ExchangeOnline command with the same error text, the result is
success exactly when the output contains one of the fixed success phrases
(non-empty output alone does not suffice). -/
theorem classifier_access_denied_spec (cmd out err : String)
    (hden : containsSub (jsToLower err) "access denied" = true) :
    (containsSub (jsToLower cmd) "connect-exchangeonline" = false →
      classifyExitCode cmd out err = 1)
    ∧ (containsSub (jsToLower cmd) "connect-exchangeonline" = true →
      (classifyExitCode cmd out err = 0 ↔
        (connectSuccessPatterns.any fun p => containsSub (jsToLower out) p) = true)) := by
  have hEP := access_denied_mem_errorPatterns hden
  constructor
  · intro hcc
    simp [classifyExitCode, hcc, hEP]
  · intro hcc
    cases hSP : (connectSuccessPatterns.any fun p => containsSub (jsToLower out) p) <;>
      simp [classifyExitCode, hcc, hEP, hSP]

/-- C5 witness: concrete evaluation of both classifier branches. -/
theorem classifier_access_denied_spec_witness :
    classifyExitCode "Connect-ExchangeOnline" "Connected to Exchange Online successfully" "Access Denied" = 0 :=
  ((classifier_access_denied_spec "Connect-ExchangeOnline"
      "Connected to Exchange Online successfully" "Access Denied" (by decide)).2
    (by decide)).mpr (by decide)

/-! ## Command Channel theorems -/

/-- C3: when the in-flight head command's timeout fires, the caller is
rejected with a timeout error, but the command is NOT removed from the
queue, and processQueue writes the timed-out command's own text to the
process again instead of dispatching the next queued command. -/
theorem channel_timeout_redispatches_head :
    (onCommandTimeout ⟨0, "Get-PlaceA"⟩ chanScenario).settled
        = [(0, Outcome.timedOut)]
    ∧ (onCommandTimeout ⟨0, "Get-PlaceA"⟩ chanScenario).commandQueue
        = [⟨0, "Get-PlaceA"⟩, ⟨1, "Get-PlaceB"⟩]
    ∧ (onCommandTimeout ⟨0, "Get-PlaceA"⟩ chanScenario).writes
        = [dispatchText "Get-PlaceA", dispatchText "Get-PlaceA"] :=
  ⟨rfl, rfl, rfl⟩

/-- C7 counterexample: after the process close handler runs on a state
with a pending queued command, no caller has been notified of any failure
(settled stays empty and the queue is untouched), contradicting the claim
that every queued command fails with a ProcessExited error. -/
theorem channel_close_counterexample :
    (onProcessClose chanScenario).commandQueue
        = [⟨0, "Get-PlaceA"⟩, ⟨1, "Get-PlaceB"⟩]
    ∧ (onProcessClose chanScenario).settled = []
    ∧ (onProcessClose chanScenario).restartDelayMs = some 1000 :=
  ⟨rfl, rfl, rfl⟩

/-- C7 amended: if the external process exits unexpectedly, the channel
schedules a restart after a fixed 1000 ms backoff and marks itself
uninitialized, but queued commands are left pending: none is rejected or
resolved by the close handler, and no write occurs. -/
theorem channel_close_schedules_restart_spec (st : ChannelState) :
    (onProcessClose st).commandQueue = st.commandQueue
    ∧ (onProcessClose st).settled = st.settled
    ∧ (onProcessClose st).writes = st.writes
    ∧ (onProcessClose st).isInitialized = false
    ∧ (onProcessClose st).restartDelayMs = some 1000 :=
  ⟨rfl, rfl, rfl, rfl, rfl⟩

/-! ## Entity Parser lemmas -/

theorem stripAnsiF_no_esc (fuel : Nat) (l : List Char)
    (h : '\x1b' ∉ l) : stripAnsiF fuel l = l := by
  induction fuel generalizing l with
  | zero => rfl
  | succ f ih =>
    cases l with
    | nil => rfl
    | cons c rest =>
      have hc : ansiSkip c rest = none := by
        unfold ansiSkip
        have hcc : (c == '\x1b') = false := by
          simp only [beq_eq_false_iff_ne, ne_eq]
          intro hh
          exact h (hh ▸ List.mem_cons_self c rest)
        rw [hcc]
        simp
      rw [stripAnsiF, hc]
      exact congrArg (c :: ·) (ih rest fun hm => h (List.mem_cons_of_mem c hm))

theorem stripAnsi_no_esc (l : List Char) (h : '\x1b' ∉ l) : stripAnsi l = l :=
  stripAnsiF_no_esc l.length l h

theorem trimFixed_drop {t : List Char} (h : jsTrimL t = t) :
    t.dropWhile isWsChar = t := by
  have hsuf : t.dropWhile isWsChar <:+ t := List.dropWhile_suffix _
  have h1 : (t.dropWhile isWsChar).length ≤ t.length := hsuf.length_le
  have hsuf2 : (t.dropWhile isWsChar).reverse.dropWhile isWsChar <:+
      (t.dropWhile isWsChar).reverse := List.dropWhile_suffix _
  have h2 := hsuf2.length_le
  have h3 : (jsTrimL t).length ≤ (t.dropWhile isWsChar).length := by
    unfold jsTrimL
    rw [List.length_reverse]
    simpa using h2
  rw [h] at h3
  exact hsuf.eq_of_length (le_antisymm h1 h3)

theorem trimFixed_reverse_drop {t : List Char} (h : jsTrimL t = t) :
    t.reverse.dropWhile isWsChar = t.reverse := by
  have hd := trimFixed_drop h
  unfold jsTrimL at h
  rw [hd] at h
  have := congrArg List.reverse h
  simpa using this

theorem dropWhile_append_of_fixed {k rest : List Char}
    (hk : k.dropWhile isWsChar = k) (hne : k ≠ []) :
    (k ++ rest).dropWhile isWsChar = k ++ rest := by
  cases k with
  | nil => exact absurd rfl hne
  | cons a as =>
    have ha : isWsChar a = false := by
      by_contra hcon
      have ha2 : isWsChar a = true := by
        revert hcon; cases isWsChar a <;> simp
      rw [List.dropWhile_cons, ha2] at hk
      simp only [if_true] at hk
      have := (List.dropWhile_suffix (p := isWsChar) (l := as)).length_le
      rw [hk] at this
      simp at this
    rw [List.cons_append, List.dropWhile_cons, ha]
    simp

theorem line_trim {k v : List Char} (hk : jsTrimL k = k) (hknil : k ≠ [])
    (hv : jsTrimL v = v) (hvnil : v ≠ []) :
    jsTrimL (k ++ ':' :: ' ' :: v) = k ++ ':' :: ' ' :: v := by
  unfold jsTrimL
  rw [dropWhile_append_of_fixed (trimFixed_drop hk) hknil]
  have hrev : (k ++ ':' :: ' ' :: v).reverse = v.reverse ++ ' ' :: ':' :: k.reverse := by
    simp
  rw [hrev, dropWhile_append_of_fixed (trimFixed_reverse_drop hv)
    (by simpa using hvnil), ← hrev, List.reverse_reverse]

theorem val_trim {v : List Char} (hv : jsTrimL v = v) :
    jsTrimL (' ' :: v) = v := by
  unfold jsTrimL
  have h1 : (' ' :: v).dropWhile isWsChar = v.dropWhile isWsChar := by
    rw [List.dropWhile_cons]
    norm_num [isWsChar]
  rw [h1, trimFixed_drop hv, trimFixed_reverse_drop hv, List.reverse_reverse]

theorem splitOnCharL_no_sep {sep : Char} {xs : List Char}
    (h : ∀ c ∈ xs, c ≠ sep) : splitOnCharL sep xs = [xs] := by
  induction xs with
  | nil => rfl
  | cons a as ih =>
    have ha : (a == sep) = false := by
      simp only [beq_eq_false_iff_ne, ne_eq]
      exact h a (List.mem_cons_self a as)
    rw [splitOnCharL, ha]
    simp only [Bool.false_eq_true, if_false]
    rw [ih fun c hc => h c (List.mem_cons_of_mem a hc)]

theorem splitOnCharL_append {sep : Char} {xs ys : List Char}
    (h : ∀ c ∈ xs, c ≠ sep) :
    splitOnCharL sep (xs ++ sep :: ys) = xs :: splitOnCharL sep ys := by
  induction xs with
  | nil => simp [splitOnCharL]
  | cons a as ih =>
    have ha : (a == sep) = false := by
      simp only [beq_eq_false_iff_ne, ne_eq]
      exact h a (List.mem_cons_self a as)
    rw [List.cons_append, splitOnCharL, ha]
    simp only [Bool.false_eq_true, if_false]
    rw [ih fun c hc => h c (List.mem_cons_of_mem a hc)]

theorem split_join {sep : Char} :
    ∀ lines : List (List Char), lines ≠ [] →
    (∀ l ∈ lines, ∀ c ∈ l, c ≠ sep) →
    splitOnCharL sep (joinWithChar sep lines) = lines := by
  intro lines
  induction lines with
  | nil => intro h; exact absurd rfl h
  | cons x xs ih =>
    intro _ hall
    cases xs with
    | nil =>
      rw [joinWithChar]
      exact splitOnCharL_no_sep fun c hc => hall x (List.mem_cons_self x []) c hc
    | cons y ys =>
      rw [joinWithChar, splitOnCharL_append
        (fun c hc => hall x (List.mem_cons_self x (y :: ys)) c hc)]
      rw [ih (by simp) fun l hl c hc => hall l (List.mem_cons_of_mem x hl) c hc]

theorem joinWithChar_mem {sep : Char} :
    ∀ {lines : List (List Char)} {c : Char}, c ∈ joinWithChar sep lines →
      c = sep ∨ ∃ l ∈ lines, c ∈ l := by
  intro lines
  induction lines with
  | nil => intro c hc; simp [joinWithChar] at hc
  | cons x xs ih =>
    intro c hc
    cases xs with
    | nil =>
      rw [joinWithChar] at hc
      exact Or.inr ⟨x, List.mem_cons_self x [], hc⟩
    | cons y ys =>
      rw [joinWithChar] at hc
      rcases List.mem_append.mp hc with hx | hrest
      · exact Or.inr ⟨x, List.mem_cons_self x (y :: ys), hx⟩
      · rcases List.mem_cons.mp hrest with hsep | hjoin
        · exact Or.inl hsep
        · rcases ih hjoin with hs | ⟨l, hl, hcl⟩
          · exact Or.inl hs
          · exact Or.inr ⟨l, List.mem_cons_of_mem x hl, hcl⟩

theorem objSet_append {o : Obj} {k : List Char} {v : Option (List Char)}
    (h : ∀ p ∈ o, p.1 ≠ k) : objSet o k v = o ++ [(k, v)] := by
  unfold objSet
  have hany : (o.any fun p => p.1 == k) = false := by
    rw [List.any_eq_false]
    intro p hp
    simpa using h p hp
  rw [hany]
  simp

theorem kvGo_cons_kv (cur : Obj) (k v : List Char) (rest : List (List Char))
    (hk : jsTrimL k = k) (hknil : k ≠ []) (hkcol : ∀ c ∈ k, c ≠ ':')
    (hv : jsTrimL v = v) (hvnil : v ≠ []) (hvcol : ∀ c ∈ v, c ≠ ':') :
    kvGo cur ((k ++ ':' :: ' ' :: v) :: rest) =
      (if (k == pidKey) && !cur.isEmpty then [cur] else []) ++
      kvGo (objSet (if (k == pidKey) && !cur.isEmpty then ([] : Obj) else cur)
        k (some v)) rest := by
  have ht := line_trim hk hknil hv hvnil
  have htne : (k ++ ':' :: ' ' :: v).isEmpty = false := by
    cases k with
    | nil => exact absurd rfl hknil
    | cons a as => rfl
  have hcontains : (k ++ ':' :: ' ' :: v).contains ':' = true := by
    have : ':' ∈ k ++ ':' :: ' ' :: v := by simp
    simp [List.contains]
  have hsplit : splitOnCharL ':' (k ++ ':' :: ' ' :: v) = [k, ' ' :: v] := by
    rw [splitOnCharL_append hkcol, splitOnCharL_no_sep]
    intro c hc
    rcases List.mem_cons.mp hc with h1 | h2
    · subst h1; decide
    · exact hvcol c h2
  have hvalue : jsTrimL (joinWithChar ':' [' ' :: v]) = v := by
    rw [joinWithChar]
    exact val_trim hv
  have hvE : v.isEmpty = false := by
    cases v with
    | nil => exact absurd rfl hvnil
    | cons a as => rfl
  rw [kvGo]
  simp only [ht, htne, hcontains, Bool.false_eq_true, if_false, if_true, hsplit,
    List.headD_cons, List.tail_cons, hvalue, hk, hv, hvE]
  cases hpk : (k == parentKey) <;> simp

theorem kvGo_pairs (pairs : List (List Char × List Char))
    (rest : List (List Char)) (cur : Obj)
    (hg : ∀ p ∈ pairs, goodPair p)
    (hdisj : ∀ p ∈ pairs, ∀ q ∈ cur, q.1 ≠ p.1)
    (hnodup : (pairs.map Prod.fst).Nodup) :
    kvGo cur (pairs.map pairLine ++ rest) =
      kvGo (cur ++ pairs.map fun p => (p.1, some p.2)) rest := by
  induction pairs generalizing cur with
  | nil => simp
  | cons p ps ih =>
    have hp := hg p (List.mem_cons_self p ps)
    obtain ⟨⟨hk1, hk2, hk3⟩, ⟨hv1, hv2, hv3⟩, hkpid⟩ := hp
    rw [List.map_cons, List.cons_append, pairLine, kvGo_cons_kv cur p.1 p.2 _
      hk2 hk1 (fun c hc => (hk3 c hc).1) hv2 hv1 (fun c hc => (hv3 c hc).1)]
    have hpid : (p.1 == pidKey) = false := by
      simp only [beq_eq_false_iff_ne, ne_eq]
      exact hkpid
    rw [hpid]
    simp only [Bool.false_and, Bool.false_eq_true, if_false, List.nil_append]
    rw [objSet_append fun q hq => hdisj p (List.mem_cons_self p ps) q hq]
    have hnodup2 : (ps.map Prod.fst).Nodup := by
      have h4 := hnodup
      rw [List.map_cons, List.nodup_cons] at h4
      exact h4.2
    have hdisj2 : ∀ q ∈ ps, ∀ r ∈ cur ++ [(p.1, some p.2)], r.1 ≠ q.1 := by
      intro q hq r hr
      rcases List.mem_append.mp hr with h1 | h2
      · exact hdisj q (List.mem_cons_of_mem p hq) r h1
      · have hr2 : r = (p.1, some p.2) := by simpa using h2
        subst hr2
        have hne : p.1 ∉ ps.map Prod.fst := by
          have h4 := hnodup
          rw [List.map_cons, List.nodup_cons] at h4
          exact h4.1
        intro hcon
        exact hne (hcon ▸ List.mem_map_of_mem Prod.fst hq)
    rw [ih (cur ++ [(p.1, some p.2)])
      (fun q hq => hg q (List.mem_cons_of_mem p hq)) hdisj2 hnodup2]
    rw [List.append_assoc]
    rfl

theorem kvGo_block (pid : List Char) (pairs : List (List Char × List Char))
    (rest : List (List Char)) (cur : Obj)
    (hpid : goodTok pid) (hg : ∀ p ∈ pairs, goodPair p)
    (hkeys : (pairs.map Prod.fst).Nodup) :
    kvGo cur (blockLines (pid, pairs) ++ rest) =
      (if cur.isEmpty then [] else [cur]) ++ kvGo (blockObj (pid, pairs)) rest := by
  obtain ⟨hp1, hp2, hp3⟩ := hpid
  have hdisj1 : ∀ p ∈ pairs, ∀ q ∈ [(pidKey, some pid)], q.1 ≠ p.1 := by
    intro p hp q hq
    have hq2 : q = (pidKey, some pid) := by simpa using hq
    subst hq2
    exact fun hcon => (hg p hp).2.2 hcon.symm
  rw [blockLines]
  rw [List.cons_append, kvGo_cons_kv cur pidKey pid _
    (by decide) (by decide) (by decide) hp2 hp1 (fun c hc => (hp3 c hc).1)]
  have hbe : (pidKey == pidKey) = true := by decide
  rw [hbe]
  simp only [Bool.true_and]
  cases hc : cur.isEmpty with
  | true =>
    have hcur : cur = [] := List.isEmpty_iff.mp hc
    subst hcur
    simp only [Bool.not_true, Bool.false_eq_true, if_false, if_true,
      List.isEmpty_nil]
    rw [show objSet ([] : Obj) pidKey (some pid) = [(pidKey, some pid)] from rfl]
    rw [kvGo_pairs pairs rest [(pidKey, some pid)] hg hdisj1 hkeys]
    simp [blockObj]
  | false =>
    simp only [hc, Bool.not_false, if_true, Bool.false_eq_true, if_false]
    rw [show objSet ([] : Obj) pidKey (some pid) = [(pidKey, some pid)] from rfl]
    rw [kvGo_pairs pairs rest [(pidKey, some pid)] hg hdisj1 hkeys]
    simp [blockObj]

theorem kvGo_blocks (blocks : List (List Char × List (List Char × List Char)))
    (cur : Obj) (hb : ∀ b ∈ blocks, goodBlock b) :
    kvGo cur ((blocks.map blockLines).flatten) =
      (if cur.isEmpty then [] else [cur]) ++ blocks.map blockObj := by
  induction blocks generalizing cur with
  | nil =>
    rw [List.map_nil, List.flatten_nil, kvGo]
    simp
  | cons b bs ih =>
    obtain ⟨hb1, hb2, hb3⟩ := hb b (List.mem_cons_self b bs)
    rw [List.map_cons, List.flatten_cons]
    have hblk : blockLines b = blockLines (b.1, b.2) := by rfl
    have hobj : blockObj b = blockObj (b.1, b.2) := by rfl
    rw [hblk, kvGo_block b.1 b.2 _ cur hb1 hb2 hb3]
    rw [ih (blockObj (b.1, b.2)) (fun x hx => hb x (List.mem_cons_of_mem b hx))]
    have hne : (blockObj (b.1, b.2)).isEmpty = false := rfl
    rw [hne]
    simp only [Bool.false_eq_true, if_false, List.map_cons, ← hobj]
    rfl

theorem pairLine_chars {p : List Char × List Char} (hp : goodPair p) :
    ∀ c ∈ pairLine p, c ≠ '\n' ∧ c ≠ '\x1b' := by
  intro c hc
  rw [pairLine] at hc
  rcases List.mem_append.mp hc with h1 | h2
  · exact ⟨(hp.1.2.2 c h1).2.1, (hp.1.2.2 c h1).2.2⟩
  · rcases List.mem_cons.mp h2 with h3 | h4
    · subst h3; exact ⟨by decide, by decide⟩
    · rcases List.mem_cons.mp h4 with h5 | h6
      · subst h5; exact ⟨by decide, by decide⟩
      · exact ⟨(hp.2.1.2.2 c h6).2.1, (hp.2.1.2.2 c h6).2.2⟩

theorem blockLines_chars {b : List Char × List (List Char × List Char)}
    (hb : goodBlock b) :
    ∀ l ∈ blockLines b, ∀ c ∈ l, c ≠ '\n' ∧ c ≠ '\x1b' := by
  intro l hl c hc
  rw [blockLines] at hl
  rcases List.mem_cons.mp hl with h1 | h2
  · subst h1
    rcases List.mem_append.mp hc with ha | hb2
    · exact (by decide : ∀ c ∈ pidKey, c ≠ '\n' ∧ c ≠ '\x1b') c ha
    · rcases List.mem_cons.mp hb2 with h3 | h4
      · subst h3; exact ⟨by decide, by decide⟩
      · rcases List.mem_cons.mp h4 with h5 | h6
        · subst h5; exact ⟨by decide, by decide⟩
        · exact ⟨(hb.1.2.2 c h6).2.1, (hb.1.2.2 c h6).2.2⟩
  · obtain ⟨p, hp, hpl⟩ := List.mem_map.mp h2
    exact pairLine_chars (hb.2.1 p hp) c (hpl ▸ hc)

theorem rendered_lines_chars {pre : List (List Char × List Char)}
    {blocks : List (List Char × List (List Char × List Char))}
    (hpre : ∀ p ∈ pre, goodPair p) (hb : ∀ b ∈ blocks, goodBlock b) :
    ∀ l ∈ pre.map pairLine ++ (blocks.map blockLines).flatten,
      ∀ c ∈ l, c ≠ '\n' ∧ c ≠ '\x1b' := by
  intro l hl c hc
  rcases List.mem_append.mp hl with h1 | h2
  · obtain ⟨p, hp, hpl⟩ := List.mem_map.mp h1
    exact pairLine_chars (hpre p hp) c (hpl ▸ hc)
  · obtain ⟨ls, hls, hlls⟩ := List.mem_flatten.mp h2
    obtain ⟨b, hbm, hbl⟩ := List.mem_map.mp hls
    exact blockLines_chars (hb b hbm) (l := l) (hbl ▸ hlls) c hc

/-- C8 counterexample: on the input DisplayName: A then PlaceId: p1, the
external identifier field PlaceId occurs only once (it never repeats),
yet the parser flushes the accumulated record when that single PlaceId
line arrives and produces two records, where the claim as stated implies
a single record. -/
theorem parser_boundary_counterexample :
    parsePlacesText "DisplayName: A\nPlaceId: p1"
      = [[("DisplayName".data, some "A".data)],
         [("PlaceId".data, some "p1".data)]] := by
  decide

/-- C8 amended: for non-JSON line-oriented Key: Value input, the parser
starts a new record exactly when the external identifier key (PlaceId)
appears on a line while the current record already holds at least one
key/value pair (whether or not that pair came from a PlaceId line);
other key/value pairs accumulate into the current record, and the final
non-empty record is flushed at end of input.  Stated as a round trip:
rendering an optional anonymous leading pair group followed by PlaceId-
headed blocks and parsing it back yields exactly one record per group. -/
theorem parser_boundary_spec (pre : List (List Char × List Char))
    (blocks : List (List Char × List (List Char × List Char)))
    (hpre : ∀ p ∈ pre, goodPair p) (hpreN : (pre.map Prod.fst).Nodup)
    (hb : ∀ b ∈ blocks, goodBlock b)
    (hne : pre.map pairLine ++ (blocks.map blockLines).flatten ≠ []) :
    parsePlacesText
        ⟨joinWithChar '\n' (pre.map pairLine ++ (blocks.map blockLines).flatten)⟩
      = (if pre.isEmpty then [] else [pre.map fun p => (p.1, some p.2)])
          ++ blocks.map blockObj := by
  unfold parsePlacesText
  have hchars := rendered_lines_chars hpre hb
  have hdata : (String.mk (joinWithChar '\n'
      (pre.map pairLine ++ (blocks.map blockLines).flatten))).data
      = joinWithChar '\n' (pre.map pairLine ++ (blocks.map blockLines).flatten) := rfl
  rw [hdata]
  have hnoesc : '\x1b' ∉ joinWithChar '\n'
      (pre.map pairLine ++ (blocks.map blockLines).flatten) := by
    intro hmem
    rcases joinWithChar_mem hmem with h1 | ⟨l, hl, hcl⟩
    · exact absurd h1 (by decide)
    · exact (hchars l hl _ hcl).2 rfl
  rw [stripAnsi_no_esc _ hnoesc]
  rw [split_join _ hne fun l hl c hc => (hchars l hl c hc).1]
  rw [kvGo_pairs pre _ [] hpre (fun p hp q hq => by simp at hq) hpreN,
    List.nil_append, kvGo_blocks blocks _ hb]
  congr 1
  cases pre <;> simp

/-- C8 witness: a concrete leading anonymous pair plus one PlaceId block,
parsed via the round-trip theorem. -/
theorem parser_boundary_spec_witness :
    parsePlacesText
        ⟨joinWithChar '\n'
          ([(("Name".data : List Char), ("X".data : List Char))].map pairLine ++
            ([(("p1".data : List Char), [(("DisplayName".data : List Char), ("B".data : List Char))])].map blockLines).flatten)⟩
      = [[("Name".data, some "X".data)],
         [("PlaceId".data, some "p1".data), ("DisplayName".data, some "B".data)]] :=
  (parser_boundary_spec
      [(("Name".data : List Char), ("X".data : List Char))]
      [(("p1".data : List Char), [(("DisplayName".data : List Char), ("B".data : List Char))])]
      (by unfold goodPair goodTok; decide) (by decide)
      (by unfold goodBlock goodPair goodTok; decide) (by decide)).trans (by decide)

/-! ## Reconciliation Engine theorems -/

/-! Projection facts for the deletion passes: each touches exactly one
table (keeping a sublist of it) and leaves the rest of the state alone. -/

theorem delRoomsPass_spec : ∀ (rs : List Room) (ids : List String) (st : Storage),
    ((delRoomsPass ids st rs).1.buildings = st.buildings
      ∧ (delRoomsPass ids st rs).1.floors = st.floors
      ∧ (delRoomsPass ids st rs).1.sections = st.sections
      ∧ (delRoomsPass ids st rs).1.desks = st.desks
      ∧ (delRoomsPass ids st rs).1.currentId = st.currentId)
    ∧ (delRoomsPass ids st rs).1.rooms.Sublist st.rooms := by
  intro rs
  induction rs with
  | nil => exact fun ids st => ⟨⟨rfl, rfl, rfl, rfl, rfl⟩, List.Sublist.refl _⟩
  | cons r rest ih =>
    intro ids st
    cases hc : ids.contains r.placeId with
    | true =>
      simp only [delRoomsPass, hc, if_true]
      exact ih ids st
    | false =>
      simp only [delRoomsPass, hc, Bool.false_eq_true, if_false]
      obtain ⟨⟨h1, h2, h3, h4, h5⟩, h6⟩ := ih ids (deleteRoomSt st r.id)
      exact ⟨⟨h1, h2, h3, h4, h5⟩, h6.trans (List.filter_sublist _)⟩

theorem delDesksPass_spec : ∀ (ds : List Desk) (ids : List String) (st : Storage),
    ((delDesksPass ids st ds).1.buildings = st.buildings
      ∧ (delDesksPass ids st ds).1.floors = st.floors
      ∧ (delDesksPass ids st ds).1.sections = st.sections
      ∧ (delDesksPass ids st ds).1.rooms = st.rooms
      ∧ (delDesksPass ids st ds).1.currentId = st.currentId)
    ∧ (delDesksPass ids st ds).1.desks.Sublist st.desks := by
  intro ds
  induction ds with
  | nil => exact fun ids st => ⟨⟨rfl, rfl, rfl, rfl, rfl⟩, List.Sublist.refl _⟩
  | cons d rest ih =>
    intro ids st
    cases hc : ids.contains d.placeId with
    | true =>
      simp only [delDesksPass, hc, if_true]
      exact ih ids st
    | false =>
      simp only [delDesksPass, hc, Bool.false_eq_true, if_false]
      obtain ⟨⟨h1, h2, h3, h4, h5⟩, h6⟩ := ih ids (deleteDeskSt st d.id)
      exact ⟨⟨h1, h2, h3, h4, h5⟩, h6.trans (List.filter_sublist _)⟩

theorem delSectionsPass_spec : ∀ (ss : List Section) (ids : List String) (st : Storage),
    ((delSectionsPass ids st ss).1.buildings = st.buildings
      ∧ (delSectionsPass ids st ss).1.floors = st.floors
      ∧ (delSectionsPass ids st ss).1.desks = st.desks
      ∧ (delSectionsPass ids st ss).1.rooms = st.rooms
      ∧ (delSectionsPass ids st ss).1.currentId = st.currentId)
    ∧ (delSectionsPass ids st ss).1.sections.Sublist st.sections := by
  intro ss
  induction ss with
  | nil => exact fun ids st => ⟨⟨rfl, rfl, rfl, rfl, rfl⟩, List.Sublist.refl _⟩
  | cons s rest ih =>
    intro ids st
    cases hc : ids.contains s.placeId with
    | true =>
      simp only [delSectionsPass, hc, if_true]
      exact ih ids st
    | false =>
      simp only [delSectionsPass, hc, Bool.false_eq_true, if_false]
      obtain ⟨⟨h1, h2, h3, h4, h5⟩, h6⟩ := ih ids (deleteSectionSt st s.id)
      exact ⟨⟨h1, h2, h3, h4, h5⟩, h6.trans (List.filter_sublist _)⟩

theorem delFloorsPass_spec : ∀ (fs : List Floor) (ids : List String) (st : Storage),
    ((delFloorsPass ids st fs).1.buildings = st.buildings
      ∧ (delFloorsPass ids st fs).1.sections = st.sections
      ∧ (delFloorsPass ids st fs).1.desks = st.desks
      ∧ (delFloorsPass ids st fs).1.rooms = st.rooms
      ∧ (delFloorsPass ids st fs).1.currentId = st.currentId)
    ∧ (delFloorsPass ids st fs).1.floors.Sublist st.floors := by
  intro fs
  induction fs with
  | nil => exact fun ids st => ⟨⟨rfl, rfl, rfl, rfl, rfl⟩, List.Sublist.refl _⟩
  | cons f rest ih =>
    intro ids st
    cases hc : ids.contains f.placeId with
    | true =>
      simp only [delFloorsPass, hc, if_true]
      exact ih ids st
    | false =>
      simp only [delFloorsPass, hc, Bool.false_eq_true, if_false]
      obtain ⟨⟨h1, h2, h3, h4, h5⟩, h6⟩ := ih ids (deleteFloorSt st f.id)
      exact ⟨⟨h1, h2, h3, h4, h5⟩, h6.trans (List.filter_sublist _)⟩

theorem delBuildingsPass_spec : ∀ (bs : List Building) (ids : List String) (st : Storage),
    ((delBuildingsPass ids st bs).1.floors = st.floors
      ∧ (delBuildingsPass ids st bs).1.sections = st.sections
      ∧ (delBuildingsPass ids st bs).1.desks = st.desks
      ∧ (delBuildingsPass ids st bs).1.rooms = st.rooms
      ∧ (delBuildingsPass ids st bs).1.currentId = st.currentId)
    ∧ (delBuildingsPass ids st bs).1.buildings.Sublist st.buildings := by
  intro bs
  induction bs with
  | nil => exact fun ids st => ⟨⟨rfl, rfl, rfl, rfl, rfl⟩, List.Sublist.refl _⟩
  | cons b rest ih =>
    intro ids st
    cases hc : ids.contains b.placeId with
    | true =>
      simp only [delBuildingsPass, hc, if_true]
      exact ih ids st
    | false =>
      simp only [delBuildingsPass, hc, Bool.false_eq_true, if_false]
      obtain ⟨⟨h1, h2, h3, h4, h5⟩, h6⟩ := ih ids (deleteBuildingSt st b.id)
      exact ⟨⟨h1, h2, h3, h4, h5⟩, h6.trans (List.filter_sublist _)⟩

/-! Projection facts for the creation passes: each touches exactly one
table (only appending to it) and the id counter. -/

theorem bPass_spec : ∀ (bd : List PlaceRecord) (st : Storage),
    ((bPass st bd).1.floors = st.floors
      ∧ (bPass st bd).1.sections = st.sections
      ∧ (bPass st bd).1.desks = st.desks
      ∧ (bPass st bd).1.rooms = st.rooms
      ∧ st.currentId ≤ (bPass st bd).1.currentId)
    ∧ (∀ b ∈ st.buildings, b ∈ (bPass st bd).1.buildings) := by
  intro bd
  induction bd with
  | nil => exact fun st => ⟨⟨rfl, rfl, rfl, rfl, le_rfl⟩, fun b hb => hb⟩
  | cons d rest ih =>
    intro st
    cases hE : getBuildingByPlaceId st d.PlaceId with
    | some b0 =>
      simp only [bPass, hE]
      exact ih st
    | none =>
      simp only [bPass, hE]
      obtain ⟨⟨h1, h2, h3, h4, h5⟩, h6⟩ := ih (createBuildingSt st d)
      refine ⟨⟨h1, h2, h3, h4, le_trans (Nat.le_succ _) h5⟩, fun b hb => ?_⟩
      exact h6 b (List.mem_append.mpr (Or.inl hb))

theorem fPass_spec : ∀ (fd : List PlaceRecord) (st : Storage),
    ((fPass st fd).1.buildings = st.buildings
      ∧ (fPass st fd).1.sections = st.sections
      ∧ (fPass st fd).1.desks = st.desks
      ∧ (fPass st fd).1.rooms = st.rooms
      ∧ st.currentId ≤ (fPass st fd).1.currentId)
    ∧ (∀ f ∈ st.floors, f ∈ (fPass st fd).1.floors) := by
  intro fd
  induction fd with
  | nil => exact fun st => ⟨⟨rfl, rfl, rfl, rfl, le_rfl⟩, fun f hf => hf⟩
  | cons d rest ih =>
    intro st
    cases hE : getFloorByPlaceId st d.PlaceId with
    | some f0 =>
      simp only [fPass, hE]
      exact ih st
    | none =>
      cases hP : getBuildingByParent st d.ParentId with
      | some b =>
        simp only [fPass, hE, hP]
        obtain ⟨⟨h1, h2, h3, h4, h5⟩, h6⟩ := ih (createFloorSt st d b.id)
        refine ⟨⟨h1, h2, h3, h4, le_trans (Nat.le_succ _) h5⟩, fun f hf => ?_⟩
        exact h6 f (List.mem_append.mpr (Or.inl hf))
      | none =>
        simp only [fPass, hE, hP]
        exact ih st

theorem sPass_spec : ∀ (sd : List PlaceRecord) (st : Storage),
    ((sPass st sd).1.buildings = st.buildings
      ∧ (sPass st sd).1.floors = st.floors
      ∧ (sPass st sd).1.desks = st.desks
      ∧ (sPass st sd).1.rooms = st.rooms
      ∧ st.currentId ≤ (sPass st sd).1.currentId)
    ∧ (∀ s ∈ st.sections, s ∈ (sPass st sd).1.sections) := by
  intro sd
  induction sd with
  | nil => exact fun st => ⟨⟨rfl, rfl, rfl, rfl, le_rfl⟩, fun s hs => hs⟩
  | cons d rest ih =>
    intro st
    cases hE : getSectionByPlaceId st d.PlaceId with
    | some s0 =>
      simp only [sPass, hE]
      exact ih st
    | none =>
      cases hP : getFloorByParent st d.ParentId with
      | some f =>
        simp only [sPass, hE, hP]
        obtain ⟨⟨h1, h2, h3, h4, h5⟩, h6⟩ := ih (createSectionSt st d f.id)
        refine ⟨⟨h1, h2, h3, h4, le_trans (Nat.le_succ _) h5⟩, fun s hs => ?_⟩
        exact h6 s (List.mem_append.mpr (Or.inl hs))
      | none =>
        simp only [sPass, hE, hP]
        exact ih st

theorem dPass_spec : ∀ (dd : List PlaceRecord) (st : Storage),
    ((dPass st dd).1.buildings = st.buildings
      ∧ (dPass st dd).1.floors = st.floors
      ∧ (dPass st dd).1.sections = st.sections
      ∧ (dPass st dd).1.rooms = st.rooms
      ∧ st.currentId ≤ (dPass st dd).1.currentId)
    ∧ (∀ d ∈ st.desks, d ∈ (dPass st dd).1.desks) := by
  intro dd
  induction dd with
  | nil => exact fun st => ⟨⟨rfl, rfl, rfl, rfl, le_rfl⟩, fun d hd => hd⟩
  | cons d rest ih =>
    intro st
    cases hE : getDeskByPlaceId st d.PlaceId with
    | some d0 =>
      simp only [dPass, hE]
      exact ih st
    | none =>
      cases hP : getSectionByParent st d.ParentId with
      | some s =>
        simp only [dPass, hE, hP]
        obtain ⟨⟨h1, h2, h3, h4, h5⟩, h6⟩ := ih (createDeskSt st d s.id)
        refine ⟨⟨h1, h2, h3, h4, le_trans (Nat.le_succ _) h5⟩, fun x hx => ?_⟩
        exact h6 x (List.mem_append.mpr (Or.inl hx))
      | none =>
        simp only [dPass, hE, hP]
        exact ih st

theorem rPass_spec : ∀ (rd : List PlaceRecord) (st : Storage),
    ((rPass st rd).1.buildings = st.buildings
      ∧ (rPass st rd).1.floors = st.floors
      ∧ (rPass st rd).1.sections = st.sections
      ∧ (rPass st rd).1.desks = st.desks
      ∧ st.currentId ≤ (rPass st rd).1.currentId)
    ∧ (∀ r ∈ st.rooms, r ∈ (rPass st rd).1.rooms) := by
  intro rd
  induction rd with
  | nil => exact fun st => ⟨⟨rfl, rfl, rfl, rfl, le_rfl⟩, fun r hr => hr⟩
  | cons d rest ih =>
    intro st
    cases hE : getRoomByPlaceId st d.PlaceId with
    | some r0 =>
      simp only [rPass, hE]
      exact ih st
    | none =>
      cases hS : getSectionByParent st d.ParentId with
      | some s =>
        simp only [rPass, hE, hS]
        obtain ⟨⟨h1, h2, h3, h4, h5⟩, h6⟩ := ih (createRoomSt st d (some s.id) s.floorId)
        refine ⟨⟨h1, h2, h3, h4, le_trans (Nat.le_succ _) h5⟩, fun r hr => ?_⟩
        exact h6 r (List.mem_append.mpr (Or.inl hr))
      | none =>
        cases hF : getFloorByParent st d.ParentId with
        | some f =>
          simp only [rPass, hE, hS, hF]
          obtain ⟨⟨h1, h2, h3, h4, h5⟩, h6⟩ := ih (createRoomSt st d none (some f.id))
          refine ⟨⟨h1, h2, h3, h4, le_trans (Nat.le_succ _) h5⟩, fun r hr => ?_⟩
          exact h6 r (List.mem_append.mpr (Or.inl hr))
        | none =>
          simp only [rPass, hE, hS, hF]
          obtain ⟨⟨h1, h2, h3, h4, h5⟩, h6⟩ := ih (createRoomSt st d none none)
          refine ⟨⟨h1, h2, h3, h4, le_trans (Nat.le_succ _) h5⟩, fun r hr => ?_⟩
          exact h6 r (List.mem_append.mpr (Or.inl hr))

/-! Lookup congruence: each lookup depends on a single table. -/

theorem getBuildingByParent_eq {st1 st2 : Storage}
    (h : st1.buildings = st2.buildings) (pid : Option String) :
    getBuildingByParent st1 pid = getBuildingByParent st2 pid := by
  cases pid <;> simp [getBuildingByParent, getBuildingByPlaceId, h]

theorem getFloorByParent_eq {st1 st2 : Storage}
    (h : st1.floors = st2.floors) (pid : Option String) :
    getFloorByParent st1 pid = getFloorByParent st2 pid := by
  cases pid <;> simp [getFloorByParent, getFloorByPlaceId, h]

theorem getSectionByParent_eq {st1 st2 : Storage}
    (h : st1.sections = st2.sections) (pid : Option String) :
    getSectionByParent st1 pid = getSectionByParent st2 pid := by
  cases pid <;> simp [getSectionByParent, getSectionByPlaceId, h]

/-! Membership decomposition for the creation passes: a row in the output
table either pre-existed or was created from a fresh record whose parent
resolved at its turn (with a freshly allocated id). -/

theorem bPass_buildings_mem : ∀ (bd : List PlaceRecord) (st : Storage) (b : Building),
    b ∈ (bPass st bd).1.buildings →
    b ∈ st.buildings ∨ ∃ d ∈ bd, b.placeId = d.PlaceId ∧ st.currentId ≤ b.id := by
  intro bd
  induction bd with
  | nil => exact fun st b hb => Or.inl hb
  | cons d rest ih =>
    intro st b hb
    cases hE : getBuildingByPlaceId st d.PlaceId with
    | some b0 =>
      simp only [bPass, hE] at hb
      rcases ih st b hb with h | ⟨d', hd', h1, h2⟩
      · exact Or.inl h
      · exact Or.inr ⟨d', List.mem_cons_of_mem d hd', h1, h2⟩
    | none =>
      simp only [bPass, hE] at hb
      rcases ih (createBuildingSt st d) b hb with h | ⟨d', hd', h1, h2⟩
      · rcases List.mem_append.mp h with h' | h'
        · exact Or.inl h'
        · have hb2 := List.mem_singleton.mp h'
          subst hb2
          exact Or.inr ⟨d, List.mem_cons_self d rest, rfl, le_rfl⟩
      · exact Or.inr ⟨d', List.mem_cons_of_mem d hd', h1,
          le_trans (Nat.le_succ _) h2⟩

theorem fPass_floors_mem : ∀ (fd : List PlaceRecord) (st : Storage) (f : Floor),
    f ∈ (fPass st fd).1.floors →
    f ∈ st.floors ∨ ∃ d ∈ fd, f.placeId = d.PlaceId
      ∧ getBuildingByParent st d.ParentId ≠ none ∧ st.currentId ≤ f.id := by
  intro fd
  induction fd with
  | nil => exact fun st f hf => Or.inl hf
  | cons d rest ih =>
    intro st f hf
    cases hE : getFloorByPlaceId st d.PlaceId with
    | some f0 =>
      simp only [fPass, hE] at hf
      rcases ih st f hf with h | ⟨d', hd', h1, h2, h3⟩
      · exact Or.inl h
      · exact Or.inr ⟨d', List.mem_cons_of_mem d hd', h1, h2, h3⟩
    | none =>
      cases hP : getBuildingByParent st d.ParentId with
      | none =>
        simp only [fPass, hE, hP] at hf
        rcases ih st f hf with h | ⟨d', hd', h1, h2, h3⟩
        · exact Or.inl h
        · exact Or.inr ⟨d', List.mem_cons_of_mem d hd', h1, h2, h3⟩
      | some b =>
        simp only [fPass, hE, hP] at hf
        rcases ih (createFloorSt st d b.id) f hf with h | ⟨d', hd', h1, h2, h3⟩
        · rcases List.mem_append.mp h with h' | h'
          · exact Or.inl h'
          · have hf2 := List.mem_singleton.mp h'
            subst hf2
            exact Or.inr ⟨d, List.mem_cons_self d rest, rfl,
              by rw [hP]; exact fun hc => Option.noConfusion hc, le_rfl⟩
        · refine Or.inr ⟨d', List.mem_cons_of_mem d hd', h1, ?_, le_trans (Nat.le_succ _) h3⟩
          rwa [@getBuildingByParent_eq (createFloorSt st d b.id) _ rfl _] at h2

theorem sPass_sections_mem : ∀ (sd : List PlaceRecord) (st : Storage) (s : Section),
    s ∈ (sPass st sd).1.sections →
    s ∈ st.sections ∨ ∃ d ∈ sd, s.placeId = d.PlaceId
      ∧ getFloorByParent st d.ParentId ≠ none ∧ st.currentId ≤ s.id := by
  intro sd
  induction sd with
  | nil => exact fun st s hs => Or.inl hs
  | cons d rest ih =>
    intro st s hs
    cases hE : getSectionByPlaceId st d.PlaceId with
    | some s0 =>
      simp only [sPass, hE] at hs
      rcases ih st s hs with h | ⟨d', hd', h1, h2, h3⟩
      · exact Or.inl h
      · exact Or.inr ⟨d', List.mem_cons_of_mem d hd', h1, h2, h3⟩
    | none =>
      cases hP : getFloorByParent st d.ParentId with
      | none =>
        simp only [sPass, hE, hP] at hs
        rcases ih st s hs with h | ⟨d', hd', h1, h2, h3⟩
        · exact Or.inl h
        · exact Or.inr ⟨d', List.mem_cons_of_mem d hd', h1, h2, h3⟩
      | some f =>
        simp only [sPass, hE, hP] at hs
        rcases ih (createSectionSt st d f.id) s hs with h | ⟨d', hd', h1, h2, h3⟩
        · rcases List.mem_append.mp h with h' | h'
          · exact Or.inl h'
          · have hs2 := List.mem_singleton.mp h'
            subst hs2
            exact Or.inr ⟨d, List.mem_cons_self d rest, rfl,
              by rw [hP]; exact fun hc => Option.noConfusion hc, le_rfl⟩
        · refine Or.inr ⟨d', List.mem_cons_of_mem d hd', h1, ?_, le_trans (Nat.le_succ _) h3⟩
          rwa [@getFloorByParent_eq (createSectionSt st d f.id) _ rfl _] at h2

theorem dPass_desks_mem : ∀ (dd : List PlaceRecord) (st : Storage) (x : Desk),
    x ∈ (dPass st dd).1.desks →
    x ∈ st.desks ∨ ∃ d ∈ dd, x.placeId = d.PlaceId
      ∧ getSectionByParent st d.ParentId ≠ none ∧ st.currentId ≤ x.id := by
  intro dd
  induction dd with
  | nil => exact fun st x hx => Or.inl hx
  | cons d rest ih =>
    intro st x hx
    cases hE : getDeskByPlaceId st d.PlaceId with
    | some d0 =>
      simp only [dPass, hE] at hx
      rcases ih st x hx with h | ⟨d', hd', h1, h2, h3⟩
      · exact Or.inl h
      · exact Or.inr ⟨d', List.mem_cons_of_mem d hd', h1, h2, h3⟩
    | none =>
      cases hP : getSectionByParent st d.ParentId with
      | none =>
        simp only [dPass, hE, hP] at hx
        rcases ih st x hx with h | ⟨d', hd', h1, h2, h3⟩
        · exact Or.inl h
        · exact Or.inr ⟨d', List.mem_cons_of_mem d hd', h1, h2, h3⟩
      | some s =>
        simp only [dPass, hE, hP] at hx
        rcases ih (createDeskSt st d s.id) x hx with h | ⟨d', hd', h1, h2, h3⟩
        · rcases List.mem_append.mp h with h' | h'
          · exact Or.inl h'
          · have hx2 := List.mem_singleton.mp h'
            subst hx2
            exact Or.inr ⟨d, List.mem_cons_self d rest, rfl,
              by rw [hP]; exact fun hc => Option.noConfusion hc, le_rfl⟩
        · refine Or.inr ⟨d', List.mem_cons_of_mem d hd', h1, ?_, le_trans (Nat.le_succ _) h3⟩
          rwa [@getSectionByParent_eq (createDeskSt st d s.id) _ rfl _] at h2

theorem rPass_rooms_mem : ∀ (rd : List PlaceRecord) (st : Storage) (r : Room),
    r ∈ (rPass st rd).1.rooms →
    r ∈ st.rooms ∨ ∃ d ∈ rd, r.placeId = d.PlaceId ∧ st.currentId ≤ r.id := by
  intro rd
  induction rd with
  | nil => exact fun st r hr => Or.inl hr
  | cons d rest ih =>
    intro st r hr
    have step : ∀ sid fid, r ∈ (rPass (createRoomSt st d sid fid) rest).1.rooms →
        r ∈ st.rooms ∨ ∃ d' ∈ d :: rest, r.placeId = d'.PlaceId ∧ st.currentId ≤ r.id := by
      intro sid fid hr2
      rcases ih (createRoomSt st d sid fid) r hr2 with h | ⟨d', hd', h1, h2⟩
      · rcases List.mem_append.mp h with h' | h'
        · exact Or.inl h'
        · have hr3 := List.mem_singleton.mp h'
          subst hr3
          exact Or.inr ⟨d, List.mem_cons_self d rest, rfl, le_rfl⟩
      · exact Or.inr ⟨d', List.mem_cons_of_mem d hd', h1, le_trans (Nat.le_succ _) h2⟩
    cases hE : getRoomByPlaceId st d.PlaceId with
    | some r0 =>
      simp only [rPass, hE] at hr
      rcases ih st r hr with h | ⟨d', hd', h1, h2⟩
      · exact Or.inl h
      · exact Or.inr ⟨d', List.mem_cons_of_mem d hd', h1, h2⟩
    | none =>
      cases hS : getSectionByParent st d.ParentId with
      | some s =>
        simp only [rPass, hE, hS] at hr
        exact step (some s.id) s.floorId hr
      | none =>
        cases hF : getFloorByParent st d.ParentId with
        | some f =>
          simp only [rPass, hE, hS, hF] at hr
          exact step none (some f.id) hr
        | none =>
          simp only [rPass, hE, hS, hF] at hr
          exact step none none hr

theorem getRoomByPlaceId_create_ne {st : Storage} {d : PlaceRecord}
    {sid fid : Option Nat} {pid : String}
    (h : getRoomByPlaceId st pid = none) (hne : d.PlaceId ≠ pid) :
    getRoomByPlaceId (createRoomSt st d sid fid) pid = none := by
  unfold getRoomByPlaceId at h ⊢
  unfold createRoomSt
  simp only [List.find?_append, h, Option.none_orElse]
  simp [hne]

/-- Every fresh room record whose lookups all fail at its turn is created
as an orphan row (null sectionId and floorId); fresh records with unique
ids keep their turn's lookups stable across the pass. -/
theorem rPass_orphan_created : ∀ (rd : List PlaceRecord) (st : Storage) (d : PlaceRecord),
    d ∈ rd → (rd.map (·.PlaceId)).Nodup →
    getRoomByPlaceId st d.PlaceId = none →
    getSectionByParent st d.ParentId = none →
    getFloorByParent st d.ParentId = none →
    ∃ r ∈ (rPass st rd).1.rooms,
      r.placeId = d.PlaceId ∧ r.sectionId = none ∧ r.floorId = none := by
  intro rd
  induction rd with
  | nil => intro st d hd; exact absurd hd (by simp)
  | cons d0 rest ih =>
    intro st d hd hnd hR hS hF
    rcases List.mem_cons.mp hd with hdh | hdrest
    · subst hdh
      simp only [rPass, hR, hS, hF]
      refine ⟨{ id := st.currentId, placeId := d.PlaceId, sectionId := none
              , floorId := none, parentPlaceId := d.ParentId
              , name := orStr d.DisplayName d.Name "Unknown Room"
              , type := (strVal d.TypeTag).getD "Room"
              , emailAddress := strVal d.EmailAddress, capacity := d.Capacity
              , isBookable := some (d.IsBookable.getD false) },
        (rPass_spec rest (createRoomSt st d none none)).2 _ ?_, rfl, rfl, rfl⟩
      unfold createRoomSt
      simp
    · have hne : d0.PlaceId ≠ d.PlaceId := by
        have h1 : d0.PlaceId ∉ rest.map (·.PlaceId) := by
          rw [List.map_cons, List.nodup_cons] at hnd
          exact hnd.1
        intro hc
        exact h1 (hc ▸ List.mem_map_of_mem (·.PlaceId) hdrest)
      have hnd2 : (rest.map (·.PlaceId)).Nodup := by
        rw [List.map_cons, List.nodup_cons] at hnd
        exact hnd.2
      have step : ∀ sid fid,
          ∃ r ∈ (rPass (createRoomSt st d0 sid fid) rest).1.rooms,
            r.placeId = d.PlaceId ∧ r.sectionId = none ∧ r.floorId = none := by
        intro sid fid
        refine ih (createRoomSt st d0 sid fid) d hdrest hnd2
          (getRoomByPlaceId_create_ne hR hne) ?_ ?_
        · rwa [@getSectionByParent_eq (createRoomSt st d0 sid fid) _ rfl _]
        · rwa [@getFloorByParent_eq (createRoomSt st d0 sid fid) _ rfl _]
      cases hE : getRoomByPlaceId st d0.PlaceId with
      | some r0 =>
        simp only [rPass, hE]
        exact ih st d hdrest hnd2 hR hS hF
      | none =>
        cases hS0 : getSectionByParent st d0.ParentId with
        | some s =>
          simp only [rPass, hE, hS0]
          exact step (some s.id) s.floorId
        | none =>
          cases hF0 : getFloorByParent st d0.ParentId with
          | some f =>
            simp only [rPass, hE, hS0, hF0]
            exact step none (some f.id)
          | none =>
            simp only [rPass, hE, hS0, hF0]
            exact step none none

/-- C2 amended: in the refresh creation passes, a fresh Floor, Section or
Desk whose parentExternalId does not resolve at its pass (to a Building,
Floor, Section respectively) is never inserted: any floor/section/desk row
present after its pass but not before comes from a record whose parent
lookup succeeded.  Rooms deliberately differ: a fresh Room (unique
externalId in the fetch) whose ParentId resolves to neither a Section nor
a Floor IS created, as an orphan row with null sectionId and floorId. -/
theorem refresh_creation_skip_amended :
    (∀ (st : Storage) (fd : List PlaceRecord) (f : Floor),
      f ∈ (fPass st fd).1.floors → f ∉ st.floors →
      ∃ d ∈ fd, f.placeId = d.PlaceId ∧ getBuildingByParent st d.ParentId ≠ none)
    ∧ (∀ (st : Storage) (sd : List PlaceRecord) (s : Section),
      s ∈ (sPass st sd).1.sections → s ∉ st.sections →
      ∃ d ∈ sd, s.placeId = d.PlaceId ∧ getFloorByParent st d.ParentId ≠ none)
    ∧ (∀ (st : Storage) (dd : List PlaceRecord) (x : Desk),
      x ∈ (dPass st dd).1.desks → x ∉ st.desks →
      ∃ d ∈ dd, x.placeId = d.PlaceId ∧ getSectionByParent st d.ParentId ≠ none)
    ∧ (∀ (st : Storage) (rd : List PlaceRecord) (d : PlaceRecord),
      d ∈ rd → (rd.map (·.PlaceId)).Nodup →
      getRoomByPlaceId st d.PlaceId = none →
      getSectionByParent st d.ParentId = none →
      getFloorByParent st d.ParentId = none →
      ∃ r ∈ (rPass st rd).1.rooms,
        r.placeId = d.PlaceId ∧ r.sectionId = none ∧ r.floorId = none) := by
  refine ⟨?_, ?_, ?_, fun st rd => rPass_orphan_created rd st⟩
  · intro st fd f hf hnf
    rcases fPass_floors_mem fd st f hf with h | ⟨d, hd, h1, h2, _⟩
    · exact absurd h hnf
    · exact ⟨d, hd, h1, h2⟩
  · intro st sd s hs hns
    rcases sPass_sections_mem sd st s hs with h | ⟨d, hd, h1, h2, _⟩
    · exact absurd h hns
    · exact ⟨d, hd, h1, h2⟩
  · intro st dd x hx hnx
    rcases dPass_desks_mem dd st x hx with h | ⟨d, hd, h1, h2, _⟩
    · exact absurd h hnx
    · exact ⟨d, hd, h1, h2⟩

/-- C2 witness: the room part applied at an empty mirror with one fresh
room record whose parent resolves to nothing. -/
theorem refresh_creation_skip_amended_witness :
    ∃ r ∈ (rPass emptyStorage [mkRec "r1" (some "nope")]).1.rooms,
      r.placeId = "r1" ∧ r.sectionId = none ∧ r.floorId = none :=
  refresh_creation_skip_amended.2.2.2 emptyStorage [mkRec "r1" (some "nope")]
    (mkRec "r1" (some "nope")) (by decide) (by decide) rfl rfl rfl

/-! Trace shape of each pass: every operation it emits has the stage rank
of that pass. -/

theorem delRoomsPass_trace_rank : ∀ (rs : List Room) (ids : List String) (st : Storage),
    ∀ op ∈ (delRoomsPass ids st rs).2.1, opStageRank op = 0 := by
  intro rs
  induction rs with
  | nil => intro ids st op hop; simp [delRoomsPass] at hop
  | cons r rest ih =>
    intro ids st op hop
    cases hc : ids.contains r.placeId with
    | true =>
      simp only [delRoomsPass, hc, if_true] at hop
      exact ih ids st op hop
    | false =>
      simp only [delRoomsPass, hc, Bool.false_eq_true, if_false,
        List.mem_cons] at hop
      rcases hop with hop | hop
      · subst hop; rfl
      · exact ih ids _ op hop

theorem delDesksPass_trace_rank : ∀ (ds : List Desk) (ids : List String) (st : Storage),
    ∀ op ∈ (delDesksPass ids st ds).2.1, opStageRank op = 1 := by
  intro ds
  induction ds with
  | nil => intro ids st op hop; simp [delDesksPass] at hop
  | cons d rest ih =>
    intro ids st op hop
    cases hc : ids.contains d.placeId with
    | true =>
      simp only [delDesksPass, hc, if_true] at hop
      exact ih ids st op hop
    | false =>
      simp only [delDesksPass, hc, Bool.false_eq_true, if_false,
        List.mem_cons] at hop
      rcases hop with hop | hop
      · subst hop; rfl
      · exact ih ids _ op hop

theorem delSectionsPass_trace_rank : ∀ (ss : List Section) (ids : List String) (st : Storage),
    ∀ op ∈ (delSectionsPass ids st ss).2.1, opStageRank op = 2 := by
  intro ss
  induction ss with
  | nil => intro ids st op hop; simp [delSectionsPass] at hop
  | cons s rest ih =>
    intro ids st op hop
    cases hc : ids.contains s.placeId with
    | true =>
      simp only [delSectionsPass, hc, if_true] at hop
      exact ih ids st op hop
    | false =>
      simp only [delSectionsPass, hc, Bool.false_eq_true, if_false,
        List.mem_cons] at hop
      rcases hop with hop | hop
      · subst hop; rfl
      · exact ih ids _ op hop

theorem delFloorsPass_trace_rank : ∀ (fs : List Floor) (ids : List String) (st : Storage),
    ∀ op ∈ (delFloorsPass ids st fs).2.1, opStageRank op = 3 := by
  intro fs
  induction fs with
  | nil => intro ids st op hop; simp [delFloorsPass] at hop
  | cons f rest ih =>
    intro ids st op hop
    cases hc : ids.contains f.placeId with
    | true =>
      simp only [delFloorsPass, hc, if_true] at hop
      exact ih ids st op hop
    | false =>
      simp only [delFloorsPass, hc, Bool.false_eq_true, if_false,
        List.mem_cons] at hop
      rcases hop with hop | hop
      · subst hop; rfl
      · exact ih ids _ op hop

theorem delBuildingsPass_trace_rank : ∀ (bs : List Building) (ids : List String) (st : Storage),
    ∀ op ∈ (delBuildingsPass ids st bs).2.1, opStageRank op = 4 := by
  intro bs
  induction bs with
  | nil => intro ids st op hop; simp [delBuildingsPass] at hop
  | cons b rest ih =>
    intro ids st op hop
    cases hc : ids.contains b.placeId with
    | true =>
      simp only [delBuildingsPass, hc, if_true] at hop
      exact ih ids st op hop
    | false =>
      simp only [delBuildingsPass, hc, Bool.false_eq_true, if_false,
        List.mem_cons] at hop
      rcases hop with hop | hop
      · subst hop; rfl
      · exact ih ids _ op hop

theorem bPass_trace_rank : ∀ (bd : List PlaceRecord) (st : Storage),
    ∀ op ∈ (bPass st bd).2.1, opStageRank op = 5 := by
  intro bd
  induction bd with
  | nil => intro st op hop; simp [bPass] at hop
  | cons d rest ih =>
    intro st op hop
    cases hE : getBuildingByPlaceId st d.PlaceId with
    | some b0 =>
      simp only [bPass, hE] at hop
      exact ih st op hop
    | none =>
      simp only [bPass, hE, List.mem_cons] at hop
      rcases hop with hop | hop
      · subst hop; rfl
      · exact ih _ op hop

theorem fPass_trace_rank : ∀ (fd : List PlaceRecord) (st : Storage),
    ∀ op ∈ (fPass st fd).2.1, opStageRank op = 6 := by
  intro fd
  induction fd with
  | nil => intro st op hop; simp [fPass] at hop
  | cons d rest ih =>
    intro st op hop
    cases hE : getFloorByPlaceId st d.PlaceId with
    | some f0 =>
      simp only [fPass, hE] at hop
      exact ih st op hop
    | none =>
      cases hP : getBuildingByParent st d.ParentId with
      | some b =>
        simp only [fPass, hE, hP, List.mem_cons] at hop
        rcases hop with hop | hop
        · subst hop; rfl
        · exact ih _ op hop
      | none =>
        simp only [fPass, hE, hP] at hop
        exact ih st op hop

theorem sPass_trace_rank : ∀ (sd : List PlaceRecord) (st : Storage),
    ∀ op ∈ (sPass st sd).2.1, opStageRank op = 7 := by
  intro sd
  induction sd with
  | nil => intro st op hop; simp [sPass] at hop
  | cons d rest ih =>
    intro st op hop
    cases hE : getSectionByPlaceId st d.PlaceId with
    | some s0 =>
      simp only [sPass, hE] at hop
      exact ih st op hop
    | none =>
      cases hP : getFloorByParent st d.ParentId with
      | some f =>
        simp only [sPass, hE, hP, List.mem_cons] at hop
        rcases hop with hop | hop
        · subst hop; rfl
        · exact ih _ op hop
      | none =>
        simp only [sPass, hE, hP] at hop
        exact ih st op hop

theorem dPass_trace_rank : ∀ (dd : List PlaceRecord) (st : Storage),
    ∀ op ∈ (dPass st dd).2.1, opStageRank op = 8 := by
  intro dd
  induction dd with
  | nil => intro st op hop; simp [dPass] at hop
  | cons d rest ih =>
    intro st op hop
    cases hE : getDeskByPlaceId st d.PlaceId with
    | some d0 =>
      simp only [dPass, hE] at hop
      exact ih st op hop
    | none =>
      cases hP : getSectionByParent st d.ParentId with
      | some s =>
        simp only [dPass, hE, hP, List.mem_cons] at hop
        rcases hop with hop | hop
        · subst hop; rfl
        · exact ih _ op hop
      | none =>
        simp only [dPass, hE, hP] at hop
        exact ih st op hop

theorem rPass_trace_rank : ∀ (rd : List PlaceRecord) (st : Storage),
    ∀ op ∈ (rPass st rd).2.1, opStageRank op = 9 := by
  intro rd
  induction rd with
  | nil => intro st op hop; simp [rPass] at hop
  | cons d rest ih =>
    intro st op hop
    cases hE : getRoomByPlaceId st d.PlaceId with
    | some r0 =>
      simp only [rPass, hE] at hop
      exact ih st op hop
    | none =>
      cases hS : getSectionByParent st d.ParentId with
      | some s =>
        simp only [rPass, hE, hS, List.mem_cons] at hop
        rcases hop with hop | hop
        · subst hop; rfl
        · exact ih _ op hop
      | none =>
        cases hF : getFloorByParent st d.ParentId with
        | some f =>
          simp only [rPass, hE, hS, hF, List.mem_cons] at hop
          rcases hop with hop | hop
          · subst hop; rfl
          · exact ih _ op hop
        | none =>
          simp only [rPass, hE, hS, hF, List.mem_cons] at hop
          rcases hop with hop | hop
          · subst hop; rfl
          · exact ih _ op hop

/-! Assembling rank monotonicity of the full refresh trace. -/

theorem rank_all_ge_of_eq {l : List Op} {k k2 : Nat}
    (h : ∀ op ∈ l, opStageRank op = k) (hk : k2 ≤ k) :
    ∀ op ∈ l, k2 ≤ opStageRank op :=
  fun op hop => (h op hop) ▸ hk

theorem rank_lb_append {l1 l2 : List Op} {k : Nat}
    (h1 : ∀ op ∈ l1, k ≤ opStageRank op) (h2 : ∀ op ∈ l2, k ≤ opStageRank op) :
    ∀ op ∈ l1 ++ l2, k ≤ opStageRank op :=
  fun op hop => (List.mem_append.mp hop).elim (h1 op) (h2 op)

theorem rank_lb_weaken {l : List Op} {k k2 : Nat}
    (h : ∀ op ∈ l, k ≤ opStageRank op) (hk : k2 ≤ k) :
    ∀ op ∈ l, k2 ≤ opStageRank op :=
  fun op hop => le_trans hk (h op hop)

theorem pairwise_rank_const {l : List Op} {k : Nat}
    (h : ∀ op ∈ l, opStageRank op = k) :
    l.Pairwise fun a b => opStageRank a ≤ opStageRank b := by
  induction l with
  | nil => exact List.Pairwise.nil
  | cons a t ih =>
    refine List.Pairwise.cons (fun b hb => ?_)
      (ih fun op hop => h op (List.mem_cons_of_mem a hop))
    rw [h a (List.mem_cons_self a t), h b (List.mem_cons_of_mem a hb)]

theorem pairwise_rank_seg {l1 l2 : List Op} {k : Nat}
    (h1 : ∀ op ∈ l1, opStageRank op = k)
    (hlb : ∀ op ∈ l2, k ≤ opStageRank op)
    (h2 : l2.Pairwise fun a b => opStageRank a ≤ opStageRank b) :
    (l1 ++ l2).Pairwise fun a b => opStageRank a ≤ opStageRank b :=
  List.pairwise_append.mpr
    ⟨pairwise_rank_const h1, h2, fun a ha b hb => (h1 a ha) ▸ hlb b hb⟩

/-- The refresh trace decomposes into its ten pass segments, each of a
fixed stage rank. -/
theorem refresh_trace_segments {bF fF sF dF rF : FetchOutcome} {st : Storage}
    {out : RefreshOut} (h : refresh bF fF sF dF rF st = some out) :
    ∃ t0 t1 t2 t3 t4 t5 t6 t7 t8 t9 : List Op,
      out.trace = t0 ++ t1 ++ t2 ++ t3 ++ t4 ++ t5 ++ t6 ++ t7 ++ t8 ++ t9
      ∧ (∀ op ∈ t0, opStageRank op = 0) ∧ (∀ op ∈ t1, opStageRank op = 1)
      ∧ (∀ op ∈ t2, opStageRank op = 2) ∧ (∀ op ∈ t3, opStageRank op = 3)
      ∧ (∀ op ∈ t4, opStageRank op = 4) ∧ (∀ op ∈ t5, opStageRank op = 5)
      ∧ (∀ op ∈ t6, opStageRank op = 6) ∧ (∀ op ∈ t7, opStageRank op = 7)
      ∧ (∀ op ∈ t8, opStageRank op = 8) ∧ (∀ op ∈ t9, opStageRank op = 9) := by
  unfold refresh at h
  cases hbc : (bF.exitCode != 0) with
  | true => rw [hbc] at h; simp at h
  | false =>
    rw [hbc] at h
    simp only [Bool.false_eq_true, if_false] at h
    have hout := Option.some.inj h
    subst hout
    exact ⟨_, _, _, _, _, _, _, _, _, _, rfl,
      delRoomsPass_trace_rank _ _ _, delDesksPass_trace_rank _ _ _,
      delSectionsPass_trace_rank _ _ _, delFloorsPass_trace_rank _ _ _,
      delBuildingsPass_trace_rank _ _ _, bPass_trace_rank _ _,
      fPass_trace_rank _ _, sPass_trace_rank _ _,
      dPass_trace_rank _ _, rPass_trace_rank _ _⟩

/-- The trace of a refresh is monotone in stage rank. -/
theorem refresh_trace_sorted {bF fF sF dF rF : FetchOutcome} {st : Storage}
    {out : RefreshOut} (h : refresh bF fF sF dF rF st = some out) :
    out.trace.Pairwise fun a b => opStageRank a ≤ opStageRank b := by
  obtain ⟨t0, t1, t2, t3, t4, t5, t6, t7, t8, t9, htr,
    s0, s1, s2, s3, s4, s5, s6, s7, s8, s9⟩ := refresh_trace_segments h
  rw [htr]
  simp only [List.append_assoc]
  have lb9 : ∀ op ∈ t9, 9 ≤ opStageRank op := rank_all_ge_of_eq s9 le_rfl
  have p9 := pairwise_rank_const s9
  have p8 := pairwise_rank_seg s8 (rank_lb_weaken lb9 (by omega)) p9
  have lb8 : ∀ op ∈ t8 ++ t9, 8 ≤ opStageRank op :=
    rank_lb_append (rank_all_ge_of_eq s8 le_rfl) (rank_lb_weaken lb9 (by omega))
  have p7 := pairwise_rank_seg s7 (rank_lb_weaken lb8 (by omega)) p8
  have lb7 : ∀ op ∈ t7 ++ (t8 ++ t9), 7 ≤ opStageRank op :=
    rank_lb_append (rank_all_ge_of_eq s7 le_rfl) (rank_lb_weaken lb8 (by omega))
  have p6 := pairwise_rank_seg s6 (rank_lb_weaken lb7 (by omega)) p7
  have lb6 : ∀ op ∈ t6 ++ (t7 ++ (t8 ++ t9)), 6 ≤ opStageRank op :=
    rank_lb_append (rank_all_ge_of_eq s6 le_rfl) (rank_lb_weaken lb7 (by omega))
  have p5 := pairwise_rank_seg s5 (rank_lb_weaken lb6 (by omega)) p6
  have lb5 : ∀ op ∈ t5 ++ (t6 ++ (t7 ++ (t8 ++ t9))), 5 ≤ opStageRank op :=
    rank_lb_append (rank_all_ge_of_eq s5 le_rfl) (rank_lb_weaken lb6 (by omega))
  have p4 := pairwise_rank_seg s4 (rank_lb_weaken lb5 (by omega)) p5
  have lb4 : ∀ op ∈ t4 ++ (t5 ++ (t6 ++ (t7 ++ (t8 ++ t9)))), 4 ≤ opStageRank op :=
    rank_lb_append (rank_all_ge_of_eq s4 le_rfl) (rank_lb_weaken lb5 (by omega))
  have p3 := pairwise_rank_seg s3 (rank_lb_weaken lb4 (by omega)) p4
  have lb3 : ∀ op ∈ t3 ++ (t4 ++ (t5 ++ (t6 ++ (t7 ++ (t8 ++ t9))))), 3 ≤ opStageRank op :=
    rank_lb_append (rank_all_ge_of_eq s3 le_rfl) (rank_lb_weaken lb4 (by omega))
  have p2 := pairwise_rank_seg s2 (rank_lb_weaken lb3 (by omega)) p3
  have lb2 : ∀ op ∈ t2 ++ (t3 ++ (t4 ++ (t5 ++ (t6 ++ (t7 ++ (t8 ++ t9)))))), 2 ≤ opStageRank op :=
    rank_lb_append (rank_all_ge_of_eq s2 le_rfl) (rank_lb_weaken lb3 (by omega))
  have p1 := pairwise_rank_seg s1 (rank_lb_weaken lb2 (by omega)) p2
  have lb1 : ∀ op ∈ t1 ++ (t2 ++ (t3 ++ (t4 ++ (t5 ++ (t6 ++ (t7 ++ (t8 ++ t9))))))), 1 ≤ opStageRank op :=
    rank_lb_append (rank_all_ge_of_eq s1 le_rfl) (rank_lb_weaken lb2 (by omega))
  exact pairwise_rank_seg s0 (rank_lb_weaken lb1 (by omega)) p1

/-- C4: in every refresh the mutation trace issues deletions strictly
child-to-parent: if positions i and j of the trace hold deletions and the
stage rank of the one at i is lower (Rooms and Desks rank below Sections,
Sections below Floors, Floors below Buildings), then i comes before j.
In particular, for a mirrored Building-Floor-Section-Desk/Room chain
absent from the fresh fetch, the Room/Desk delete precedes the Section
delete, which precedes the Floor delete, which precedes the Building
delete. -/
theorem refresh_deletion_child_to_parent {bF fF sF dF rF : FetchOutcome}
    {st : Storage} {out : RefreshOut} (h : refresh bF fF sF dF rF st = some out)
    (i j : Nat) (hi : i < out.trace.length) (hj : j < out.trace.length)
    (hdi : isDelOp (out.trace.get ⟨i, hi⟩) = true)
    (_hdj : isDelOp (out.trace.get ⟨j, hj⟩) = true)
    (hlt : opStageRank (out.trace.get ⟨i, hi⟩) < opStageRank (out.trace.get ⟨j, hj⟩)) :
    i < j := by
  have hs := refresh_trace_sorted h
  rw [List.pairwise_iff_get] at hs
  by_contra hij
  have hcase : j < i ∨ j = i := by omega
  rcases hcase with hc | hc
  · have := hs ⟨j, hj⟩ ⟨i, hi⟩ hc
    omega
  · subst hc
    omega

/-- C4 witness: the chain scenario, applying the ordering theorem to the
desk deletion (index 2) and the section deletion (index 3). -/
theorem refresh_deletion_child_to_parent_witness : (2 : Nat) < 3 :=
  refresh_deletion_child_to_parent
    (h := (by decide : refresh okEmpty okEmpty okEmpty okEmpty okEmpty storageChain
      = some outChain))
    2 3 (by decide) (by decide) (by decide) (by decide) (by decide)

/-! Uniqueness of placeIds per table (C10). -/

theorem bPass_pw : ∀ (bd : List PlaceRecord) (st : Storage),
    st.buildings.Pairwise (fun a b => a.placeId ≠ b.placeId) →
    (bPass st bd).1.buildings.Pairwise (fun a b => a.placeId ≠ b.placeId) := by
  intro bd
  induction bd with
  | nil => exact fun st hu => hu
  | cons d rest ih =>
    intro st hu
    cases hE : getBuildingByPlaceId st d.PlaceId with
    | some b0 => simp only [bPass, hE]; exact ih st hu
    | none =>
      simp only [bPass, hE]
      refine ih (createBuildingSt st d) (List.pairwise_append.mpr ⟨hu, ?_, ?_⟩)
      · exact List.pairwise_singleton _ _
      · intro a ha b hb
        have hb2 := List.mem_singleton.mp hb
        subst hb2
        have := List.find?_eq_none.mp hE a ha
        simpa using this

theorem fPass_pw : ∀ (fd : List PlaceRecord) (st : Storage),
    st.floors.Pairwise (fun a b => a.placeId ≠ b.placeId) →
    (fPass st fd).1.floors.Pairwise (fun a b => a.placeId ≠ b.placeId) := by
  intro fd
  induction fd with
  | nil => exact fun st hu => hu
  | cons d rest ih =>
    intro st hu
    cases hE : getFloorByPlaceId st d.PlaceId with
    | some f0 => simp only [fPass, hE]; exact ih st hu
    | none =>
      cases hP : getBuildingByParent st d.ParentId with
      | none => simp only [fPass, hE, hP]; exact ih st hu
      | some b =>
        simp only [fPass, hE, hP]
        refine ih (createFloorSt st d b.id) (List.pairwise_append.mpr ⟨hu, ?_, ?_⟩)
        · exact List.pairwise_singleton _ _
        · intro a ha x hx
          have hx2 := List.mem_singleton.mp hx
          subst hx2
          have := List.find?_eq_none.mp hE a ha
          simpa using this

theorem sPass_pw : ∀ (sd : List PlaceRecord) (st : Storage),
    st.sections.Pairwise (fun a b => a.placeId ≠ b.placeId) →
    (sPass st sd).1.sections.Pairwise (fun a b => a.placeId ≠ b.placeId) := by
  intro sd
  induction sd with
  | nil => exact fun st hu => hu
  | cons d rest ih =>
    intro st hu
    cases hE : getSectionByPlaceId st d.PlaceId with
    | some s0 => simp only [sPass, hE]; exact ih st hu
    | none =>
      cases hP : getFloorByParent st d.ParentId with
      | none => simp only [sPass, hE, hP]; exact ih st hu
      | some f =>
        simp only [sPass, hE, hP]
        refine ih (createSectionSt st d f.id) (List.pairwise_append.mpr ⟨hu, ?_, ?_⟩)
        · exact List.pairwise_singleton _ _
        · intro a ha x hx
          have hx2 := List.mem_singleton.mp hx
          subst hx2
          have := List.find?_eq_none.mp hE a ha
          simpa using this

theorem dPass_pw : ∀ (dd : List PlaceRecord) (st : Storage),
    st.desks.Pairwise (fun a b => a.placeId ≠ b.placeId) →
    (dPass st dd).1.desks.Pairwise (fun a b => a.placeId ≠ b.placeId) := by
  intro dd
  induction dd with
  | nil => exact fun st hu => hu
  | cons d rest ih =>
    intro st hu
    cases hE : getDeskByPlaceId st d.PlaceId with
    | some d0 => simp only [dPass, hE]; exact ih st hu
    | none =>
      cases hP : getSectionByParent st d.ParentId with
      | none => simp only [dPass, hE, hP]; exact ih st hu
      | some s =>
        simp only [dPass, hE, hP]
        refine ih (createDeskSt st d s.id) (List.pairwise_append.mpr ⟨hu, ?_, ?_⟩)
        · exact List.pairwise_singleton _ _
        · intro a ha x hx
          have hx2 := List.mem_singleton.mp hx
          subst hx2
          have := List.find?_eq_none.mp hE a ha
          simpa using this

theorem rPass_pw : ∀ (rd : List PlaceRecord) (st : Storage),
    st.rooms.Pairwise (fun a b => a.placeId ≠ b.placeId) →
    (rPass st rd).1.rooms.Pairwise (fun a b => a.placeId ≠ b.placeId) := by
  intro rd
  induction rd with
  | nil => exact fun st hu => hu
  | cons d rest ih =>
    intro st hu
    have hgrow : ∀ sid fid, getRoomByPlaceId st d.PlaceId = none →
        (createRoomSt st d sid fid).rooms.Pairwise
          (fun a b => a.placeId ≠ b.placeId) := by
      intro sid fid hE
      refine List.pairwise_append.mpr ⟨hu, ?_, ?_⟩
      · exact List.pairwise_singleton _ _
      · intro a ha x hx
        have hx2 := List.mem_singleton.mp hx
        subst hx2
        have := List.find?_eq_none.mp hE a ha
        simpa using this
    cases hE : getRoomByPlaceId st d.PlaceId with
    | some r0 => simp only [rPass, hE]; exact ih st hu
    | none =>
      cases hS : getSectionByParent st d.ParentId with
      | some s =>
        simp only [rPass, hE, hS]
        exact ih (createRoomSt st d (some s.id) s.floorId) (hgrow _ _ hE)
      | none =>
        cases hF : getFloorByParent st d.ParentId with
        | some f =>
          simp only [rPass, hE, hS, hF]
          exact ih (createRoomSt st d none (some f.id)) (hgrow _ _ hE)
        | none =>
          simp only [rPass, hE, hS, hF]
          exact ih (createRoomSt st d none none) (hgrow _ _ hE)

theorem delRoomsPass_uniq (ids : List String) (st : Storage) (rs : List Room)
    (hu : uniquePids st) : uniquePids (delRoomsPass ids st rs).1 := by
  obtain ⟨⟨h1, h2, h3, h4, _⟩, h6⟩ := delRoomsPass_spec rs ids st
  exact ⟨h1 ▸ hu.1, h2 ▸ hu.2.1, h3 ▸ hu.2.2.1, h4 ▸ hu.2.2.2.1,
    List.Pairwise.sublist h6 hu.2.2.2.2⟩

theorem delDesksPass_uniq (ids : List String) (st : Storage) (ds : List Desk)
    (hu : uniquePids st) : uniquePids (delDesksPass ids st ds).1 := by
  obtain ⟨⟨h1, h2, h3, h4, _⟩, h6⟩ := delDesksPass_spec ds ids st
  exact ⟨h1 ▸ hu.1, h2 ▸ hu.2.1, h3 ▸ hu.2.2.1,
    List.Pairwise.sublist h6 hu.2.2.2.1, h4 ▸ hu.2.2.2.2⟩

theorem delSectionsPass_uniq (ids : List String) (st : Storage) (ss : List Section)
    (hu : uniquePids st) : uniquePids (delSectionsPass ids st ss).1 := by
  obtain ⟨⟨h1, h2, h3, h4, _⟩, h6⟩ := delSectionsPass_spec ss ids st
  exact ⟨h1 ▸ hu.1, h2 ▸ hu.2.1, List.Pairwise.sublist h6 hu.2.2.1,
    h3 ▸ hu.2.2.2.1, h4 ▸ hu.2.2.2.2⟩

theorem delFloorsPass_uniq (ids : List String) (st : Storage) (fs : List Floor)
    (hu : uniquePids st) : uniquePids (delFloorsPass ids st fs).1 := by
  obtain ⟨⟨h1, h2, h3, h4, _⟩, h6⟩ := delFloorsPass_spec fs ids st
  exact ⟨h1 ▸ hu.1, List.Pairwise.sublist h6 hu.2.1, h2 ▸ hu.2.2.1,
    h3 ▸ hu.2.2.2.1, h4 ▸ hu.2.2.2.2⟩

theorem delBuildingsPass_uniq (ids : List String) (st : Storage) (bs : List Building)
    (hu : uniquePids st) : uniquePids (delBuildingsPass ids st bs).1 := by
  obtain ⟨⟨h1, h2, h3, h4, _⟩, h6⟩ := delBuildingsPass_spec bs ids st
  exact ⟨List.Pairwise.sublist h6 hu.1, h1 ▸ hu.2.1, h2 ▸ hu.2.2.1,
    h3 ▸ hu.2.2.2.1, h4 ▸ hu.2.2.2.2⟩

theorem bPass_uniq (bd : List PlaceRecord) (st : Storage)
    (hu : uniquePids st) : uniquePids (bPass st bd).1 := by
  obtain ⟨⟨h1, h2, h3, h4, _⟩, _⟩ := bPass_spec bd st
  exact ⟨bPass_pw bd st hu.1, h1 ▸ hu.2.1, h2 ▸ hu.2.2.1, h3 ▸ hu.2.2.2.1,
    h4 ▸ hu.2.2.2.2⟩

theorem fPass_uniq (fd : List PlaceRecord) (st : Storage)
    (hu : uniquePids st) : uniquePids (fPass st fd).1 := by
  obtain ⟨⟨h1, h2, h3, h4, _⟩, _⟩ := fPass_spec fd st
  exact ⟨h1 ▸ hu.1, fPass_pw fd st hu.2.1, h2 ▸ hu.2.2.1, h3 ▸ hu.2.2.2.1,
    h4 ▸ hu.2.2.2.2⟩

theorem sPass_uniq (sd : List PlaceRecord) (st : Storage)
    (hu : uniquePids st) : uniquePids (sPass st sd).1 := by
  obtain ⟨⟨h1, h2, h3, h4, _⟩, _⟩ := sPass_spec sd st
  exact ⟨h1 ▸ hu.1, h2 ▸ hu.2.1, sPass_pw sd st hu.2.2.1, h3 ▸ hu.2.2.2.1,
    h4 ▸ hu.2.2.2.2⟩

theorem dPass_uniq (dd : List PlaceRecord) (st : Storage)
    (hu : uniquePids st) : uniquePids (dPass st dd).1 := by
  obtain ⟨⟨h1, h2, h3, h4, _⟩, _⟩ := dPass_spec dd st
  exact ⟨h1 ▸ hu.1, h2 ▸ hu.2.1, h3 ▸ hu.2.2.1, dPass_pw dd st hu.2.2.2.1,
    h4 ▸ hu.2.2.2.2⟩

theorem rPass_uniq (rd : List PlaceRecord) (st : Storage)
    (hu : uniquePids st) : uniquePids (rPass st rd).1 := by
  obtain ⟨⟨h1, h2, h3, h4, _⟩, _⟩ := rPass_spec rd st
  exact ⟨h1 ▸ hu.1, h2 ▸ hu.2.1, h3 ▸ hu.2.2.1, h4 ▸ hu.2.2.2.1,
    rPass_pw rd st hu.2.2.2.2⟩

/-- C10: every creation pass inserts a row only after the by-placeId
lookup for its type returns nothing, so a refresh maps a mirror with at
most one row per (type, placeId) to a mirror with at most one row per
(type, placeId), even when the fresh fetch carries duplicate
externalIds. -/
theorem refresh_pid_unique_invariant {bF fF sF dF rF : FetchOutcome}
    {st : Storage} {out : RefreshOut} (h : refresh bF fF sF dF rF st = some out)
    (hu : uniquePids st) : uniquePids out.storage := by
  unfold refresh at h
  cases hbc : (bF.exitCode != 0) with
  | true => rw [hbc] at h; simp at h
  | false =>
    rw [hbc] at h
    simp only [Bool.false_eq_true, if_false] at h
    have hout := Option.some.inj h
    subst hout
    exact rPass_uniq _ _ (dPass_uniq _ _ (sPass_uniq _ _ (fPass_uniq _ _
      (bPass_uniq _ _ (delBuildingsPass_uniq _ _ _ (delFloorsPass_uniq _ _ _
        (delSectionsPass_uniq _ _ _ (delDesksPass_uniq _ _ _
          (delRoomsPass_uniq _ _ _ hu)))))))))

/-- C10 witness: the empty mirror refreshed with a duplicated fresh room
externalId still has unique placeIds per table. -/
theorem refresh_pid_unique_invariant_witness : uniquePids outDupRooms.storage :=
  @refresh_pid_unique_invariant okEmpty okEmpty okEmpty okEmpty
    ⟨0, [mkRec "rr" none, mkRec "rr" none]⟩ emptyStorage outDupRooms
    (by decide)
    ⟨by simp [emptyStorage], by simp [emptyStorage], by simp [emptyStorage],
      by simp [emptyStorage], by simp [emptyStorage]⟩

/-! Helpers and pass characterizations used for idempotence (C9). -/

theorem find?_ne_none_of_mem {α : Type} {p : α → Bool} {l : List α} {a : α}
    (h : a ∈ l) (hp : p a = true) : l.find? p ≠ none := by
  have hs := List.find?_isSome.mpr ⟨a, h, hp⟩
  intro hc
  rw [hc] at hs
  simp at hs

/-- Rows surviving a room deletion pass were rows before it, and a
surviving row that was in the snapshot must have its placeId in the fresh
set (otherwise its own processing step would have deleted it). -/
theorem delRoomsPass_mem : ∀ (rs : List Room) (ids : List String) (st : Storage)
    (r : Room), r ∈ (delRoomsPass ids st rs).1.rooms →
    r ∈ st.rooms ∧ (r ∈ rs → ids.contains r.placeId = true) := by
  intro rs
  induction rs with
  | nil => exact fun ids st r hr => ⟨hr, fun hc => absurd hc (by simp)⟩
  | cons r0 rest ih =>
    intro ids st r hr
    cases hc : ids.contains r0.placeId with
    | true =>
      simp only [delRoomsPass, hc, if_true] at hr
      obtain ⟨h1, h2⟩ := ih ids st r hr
      refine ⟨h1, fun hm => ?_⟩
      rcases List.mem_cons.mp hm with hm | hm
      · subst hm; exact hc
      · exact h2 hm
    | false =>
      simp only [delRoomsPass, hc, Bool.false_eq_true, if_false] at hr
      obtain ⟨h1, h2⟩ := ih ids (deleteRoomSt st r0.id) r hr
      have h3 := List.mem_filter.mp h1
      refine ⟨h3.1, fun hm => ?_⟩
      rcases List.mem_cons.mp hm with hm | hm
      · subst hm; simp at h3
      · exact h2 hm

theorem delDesksPass_mem : ∀ (ds : List Desk) (ids : List String) (st : Storage)
    (x : Desk), x ∈ (delDesksPass ids st ds).1.desks →
    x ∈ st.desks ∧ (x ∈ ds → ids.contains x.placeId = true) := by
  intro ds
  induction ds with
  | nil => exact fun ids st x hx => ⟨hx, fun hc => absurd hc (by simp)⟩
  | cons d0 rest ih =>
    intro ids st x hx
    cases hc : ids.contains d0.placeId with
    | true =>
      simp only [delDesksPass, hc, if_true] at hx
      obtain ⟨h1, h2⟩ := ih ids st x hx
      refine ⟨h1, fun hm => ?_⟩
      rcases List.mem_cons.mp hm with hm | hm
      · subst hm; exact hc
      · exact h2 hm
    | false =>
      simp only [delDesksPass, hc, Bool.false_eq_true, if_false] at hx
      obtain ⟨h1, h2⟩ := ih ids (deleteDeskSt st d0.id) x hx
      have h3 := List.mem_filter.mp h1
      refine ⟨h3.1, fun hm => ?_⟩
      rcases List.mem_cons.mp hm with hm | hm
      · subst hm; simp at h3
      · exact h2 hm

theorem delSectionsPass_mem : ∀ (ss : List Section) (ids : List String) (st : Storage)
    (s : Section), s ∈ (delSectionsPass ids st ss).1.sections →
    s ∈ st.sections ∧ (s ∈ ss → ids.contains s.placeId = true) := by
  intro ss
  induction ss with
  | nil => exact fun ids st s hs => ⟨hs, fun hc => absurd hc (by simp)⟩
  | cons s0 rest ih =>
    intro ids st s hs
    cases hc : ids.contains s0.placeId with
    | true =>
      simp only [delSectionsPass, hc, if_true] at hs
      obtain ⟨h1, h2⟩ := ih ids st s hs
      refine ⟨h1, fun hm => ?_⟩
      rcases List.mem_cons.mp hm with hm | hm
      · subst hm; exact hc
      · exact h2 hm
    | false =>
      simp only [delSectionsPass, hc, Bool.false_eq_true, if_false] at hs
      obtain ⟨h1, h2⟩ := ih ids (deleteSectionSt st s0.id) s hs
      have h3 := List.mem_filter.mp h1
      refine ⟨h3.1, fun hm => ?_⟩
      rcases List.mem_cons.mp hm with hm | hm
      · subst hm; simp at h3
      · exact h2 hm

theorem delFloorsPass_mem : ∀ (fs : List Floor) (ids : List String) (st : Storage)
    (f : Floor), f ∈ (delFloorsPass ids st fs).1.floors →
    f ∈ st.floors ∧ (f ∈ fs → ids.contains f.placeId = true) := by
  intro fs
  induction fs with
  | nil => exact fun ids st f hf => ⟨hf, fun hc => absurd hc (by simp)⟩
  | cons f0 rest ih =>
    intro ids st f hf
    cases hc : ids.contains f0.placeId with
    | true =>
      simp only [delFloorsPass, hc, if_true] at hf
      obtain ⟨h1, h2⟩ := ih ids st f hf
      refine ⟨h1, fun hm => ?_⟩
      rcases List.mem_cons.mp hm with hm | hm
      · subst hm; exact hc
      · exact h2 hm
    | false =>
      simp only [delFloorsPass, hc, Bool.false_eq_true, if_false] at hf
      obtain ⟨h1, h2⟩ := ih ids (deleteFloorSt st f0.id) f hf
      have h3 := List.mem_filter.mp h1
      refine ⟨h3.1, fun hm => ?_⟩
      rcases List.mem_cons.mp hm with hm | hm
      · subst hm; simp at h3
      · exact h2 hm

theorem delBuildingsPass_mem : ∀ (bs : List Building) (ids : List String) (st : Storage)
    (b : Building), b ∈ (delBuildingsPass ids st bs).1.buildings →
    b ∈ st.buildings ∧ (b ∈ bs → ids.contains b.placeId = true) := by
  intro bs
  induction bs with
  | nil => exact fun ids st b hb => ⟨hb, fun hc => absurd hc (by simp)⟩
  | cons b0 rest ih =>
    intro ids st b hb
    cases hc : ids.contains b0.placeId with
    | true =>
      simp only [delBuildingsPass, hc, if_true] at hb
      obtain ⟨h1, h2⟩ := ih ids st b hb
      refine ⟨h1, fun hm => ?_⟩
      rcases List.mem_cons.mp hm with hm | hm
      · subst hm; exact hc
      · exact h2 hm
    | false =>
      simp only [delBuildingsPass, hc, Bool.false_eq_true, if_false] at hb
      obtain ⟨h1, h2⟩ := ih ids (deleteBuildingSt st b0.id) b hb
      have h3 := List.mem_filter.mp h1
      refine ⟨h3.1, fun hm => ?_⟩
      rcases List.mem_cons.mp hm with hm | hm
      · subst hm; simp at h3
      · exact h2 hm

/-! A deletion pass whose snapshot rows all carry fresh placeIds does
nothing. -/

theorem delRoomsPass_noop : ∀ (rs : List Room) (ids : List String) (st : Storage),
    (∀ r ∈ rs, ids.contains r.placeId = true) →
    delRoomsPass ids st rs = (st, [], 0) := by
  intro rs
  induction rs with
  | nil => exact fun ids st _ => rfl
  | cons r rest ih =>
    intro ids st h
    have hr := h r (List.mem_cons_self r rest)
    simp only [delRoomsPass, hr, if_true]
    exact ih ids st fun x hx => h x (List.mem_cons_of_mem r hx)

theorem delDesksPass_noop : ∀ (ds : List Desk) (ids : List String) (st : Storage),
    (∀ d ∈ ds, ids.contains d.placeId = true) →
    delDesksPass ids st ds = (st, [], 0) := by
  intro ds
  induction ds with
  | nil => exact fun ids st _ => rfl
  | cons d rest ih =>
    intro ids st h
    have hd := h d (List.mem_cons_self d rest)
    simp only [delDesksPass, hd, if_true]
    exact ih ids st fun x hx => h x (List.mem_cons_of_mem d hx)

theorem delSectionsPass_noop : ∀ (ss : List Section) (ids : List String) (st : Storage),
    (∀ s ∈ ss, ids.contains s.placeId = true) →
    delSectionsPass ids st ss = (st, [], 0) := by
  intro ss
  induction ss with
  | nil => exact fun ids st _ => rfl
  | cons s rest ih =>
    intro ids st h
    have hs := h s (List.mem_cons_self s rest)
    simp only [delSectionsPass, hs, if_true]
    exact ih ids st fun x hx => h x (List.mem_cons_of_mem s hx)

theorem delFloorsPass_noop : ∀ (fs : List Floor) (ids : List String) (st : Storage),
    (∀ f ∈ fs, ids.contains f.placeId = true) →
    delFloorsPass ids st fs = (st, [], 0) := by
  intro fs
  induction fs with
  | nil => exact fun ids st _ => rfl
  | cons f rest ih =>
    intro ids st h
    have hf := h f (List.mem_cons_self f rest)
    simp only [delFloorsPass, hf, if_true]
    exact ih ids st fun x hx => h x (List.mem_cons_of_mem f hx)

theorem delBuildingsPass_noop : ∀ (bs : List Building) (ids : List String) (st : Storage),
    (∀ b ∈ bs, ids.contains b.placeId = true) →
    delBuildingsPass ids st bs = (st, [], 0) := by
  intro bs
  induction bs with
  | nil => exact fun ids st _ => rfl
  | cons b rest ih =>
    intro ids st h
    have hb := h b (List.mem_cons_self b rest)
    simp only [delBuildingsPass, hb, if_true]
    exact ih ids st fun x hx => h x (List.mem_cons_of_mem b hx)

/-! After a creation pass, every fresh record is mirrored (for floors,
sections, desks: unless its parent lookup failed at pass entry). -/

theorem bPass_complete : ∀ (bd : List PlaceRecord) (st : Storage), ∀ d ∈ bd,
    ∃ b ∈ (bPass st bd).1.buildings, b.placeId = d.PlaceId := by
  intro bd
  induction bd with
  | nil => intro st d hd; exact absurd hd (by simp)
  | cons d0 rest ih =>
    intro st d hd
    rcases List.mem_cons.mp hd with hd0 | hdr
    · subst hd0
      cases hE : getBuildingByPlaceId st d.PlaceId with
      | some b0 =>
        simp only [bPass, hE]
        refine ⟨b0, (bPass_spec rest st).2 b0 (List.mem_of_find?_eq_some hE), ?_⟩
        have := List.find?_some hE
        simpa using this
      | none =>
        simp only [bPass, hE]
        exact ⟨_, (bPass_spec rest (createBuildingSt st d)).2 _
          (List.mem_append_right _ (List.mem_singleton.mpr rfl)), rfl⟩
    · cases hE : getBuildingByPlaceId st d0.PlaceId with
      | some b0 => simp only [bPass, hE]; exact ih st d hdr
      | none => simp only [bPass, hE]; exact ih (createBuildingSt st d0) d hdr

theorem fPass_complete : ∀ (fd : List PlaceRecord) (st : Storage), ∀ d ∈ fd,
    (∃ f ∈ (fPass st fd).1.floors, f.placeId = d.PlaceId)
    ∨ getBuildingByParent st d.ParentId = none := by
  intro fd
  induction fd with
  | nil => intro st d hd; exact absurd hd (by simp)
  | cons d0 rest ih =>
    intro st d hd
    rcases List.mem_cons.mp hd with hd0 | hdr
    · subst hd0
      cases hE : getFloorByPlaceId st d.PlaceId with
      | some f0 =>
        simp only [fPass, hE]
        cases hP : getBuildingByParent st d.ParentId with
        | none => exact Or.inr rfl
        | some b =>
          refine Or.inl ⟨f0, ?_, ?_⟩ <;>
            [skip; skip]
          · exact (fPass_spec rest st).2 f0 (List.mem_of_find?_eq_some hE)
          · have := List.find?_some hE
            simpa using this
      | none =>
        cases hP : getBuildingByParent st d.ParentId with
        | none => exact Or.inr rfl
        | some b =>
          simp only [fPass, hE, hP]
          exact Or.inl ⟨_, (fPass_spec rest (createFloorSt st d b.id)).2 _
            (List.mem_append_right _ (List.mem_singleton.mpr rfl)), rfl⟩
    · cases hE : getFloorByPlaceId st d0.PlaceId with
      | some f0 =>
        simp only [fPass, hE]
        exact ih st d hdr
      | none =>
        cases hP : getBuildingByParent st d0.ParentId with
        | some b =>
          simp only [fPass, hE, hP]
          rcases ih (createFloorSt st d0 b.id) d hdr with hL | hR
          · exact Or.inl hL
          · refine Or.inr ?_
            rwa [@getBuildingByParent_eq (createFloorSt st d0 b.id) _ rfl _] at hR
        | none =>
          simp only [fPass, hE, hP]
          exact ih st d hdr

theorem sPass_complete : ∀ (sd : List PlaceRecord) (st : Storage), ∀ d ∈ sd,
    (∃ s ∈ (sPass st sd).1.sections, s.placeId = d.PlaceId)
    ∨ getFloorByParent st d.ParentId = none := by
  intro sd
  induction sd with
  | nil => intro st d hd; exact absurd hd (by simp)
  | cons d0 rest ih =>
    intro st d hd
    rcases List.mem_cons.mp hd with hd0 | hdr
    · subst hd0
      cases hE : getSectionByPlaceId st d.PlaceId with
      | some s0 =>
        simp only [sPass, hE]
        refine Or.inl ⟨s0, (sPass_spec rest st).2 s0 (List.mem_of_find?_eq_some hE), ?_⟩
        have := List.find?_some hE
        simpa using this
      | none =>
        cases hP : getFloorByParent st d.ParentId with
        | none => exact Or.inr rfl
        | some f =>
          simp only [sPass, hE, hP]
          exact Or.inl ⟨_, (sPass_spec rest (createSectionSt st d f.id)).2 _
            (List.mem_append_right _ (List.mem_singleton.mpr rfl)), rfl⟩
    · cases hE : getSectionByPlaceId st d0.PlaceId with
      | some s0 =>
        simp only [sPass, hE]
        exact ih st d hdr
      | none =>
        cases hP : getFloorByParent st d0.ParentId with
        | some f =>
          simp only [sPass, hE, hP]
          rcases ih (createSectionSt st d0 f.id) d hdr with hL | hR
          · exact Or.inl hL
          · refine Or.inr ?_
            rwa [@getFloorByParent_eq (createSectionSt st d0 f.id) _ rfl _] at hR
        | none =>
          simp only [sPass, hE, hP]
          exact ih st d hdr

theorem dPass_complete : ∀ (dd : List PlaceRecord) (st : Storage), ∀ d ∈ dd,
    (∃ x ∈ (dPass st dd).1.desks, x.placeId = d.PlaceId)
    ∨ getSectionByParent st d.ParentId = none := by
  intro dd
  induction dd with
  | nil => intro st d hd; exact absurd hd (by simp)
  | cons d0 rest ih =>
    intro st d hd
    rcases List.mem_cons.mp hd with hd0 | hdr
    · subst hd0
      cases hE : getDeskByPlaceId st d.PlaceId with
      | some x0 =>
        simp only [dPass, hE]
        refine Or.inl ⟨x0, (dPass_spec rest st).2 x0 (List.mem_of_find?_eq_some hE), ?_⟩
        have := List.find?_some hE
        simpa using this
      | none =>
        cases hP : getSectionByParent st d.ParentId with
        | none => exact Or.inr rfl
        | some s =>
          simp only [dPass, hE, hP]
          exact Or.inl ⟨_, (dPass_spec rest (createDeskSt st d s.id)).2 _
            (List.mem_append_right _ (List.mem_singleton.mpr rfl)), rfl⟩
    · cases hE : getDeskByPlaceId st d0.PlaceId with
      | some x0 =>
        simp only [dPass, hE]
        exact ih st d hdr
      | none =>
        cases hP : getSectionByParent st d0.ParentId with
        | some s =>
          simp only [dPass, hE, hP]
          rcases ih (createDeskSt st d0 s.id) d hdr with hL | hR
          · exact Or.inl hL
          · refine Or.inr ?_
            rwa [@getSectionByParent_eq (createDeskSt st d0 s.id) _ rfl _] at hR
        | none =>
          simp only [dPass, hE, hP]
          exact ih st d hdr

theorem rPass_complete : ∀ (rd : List PlaceRecord) (st : Storage), ∀ d ∈ rd,
    ∃ r ∈ (rPass st rd).1.rooms, r.placeId = d.PlaceId := by
  intro rd
  induction rd with
  | nil => intro st d hd; exact absurd hd (by simp)
  | cons d0 rest ih =>
    intro st d hd
    rcases List.mem_cons.mp hd with hd0 | hdr
    · subst hd0
      cases hE : getRoomByPlaceId st d.PlaceId with
      | some r0 =>
        simp only [rPass, hE]
        refine ⟨r0, (rPass_spec rest st).2 r0 (List.mem_of_find?_eq_some hE), ?_⟩
        have := List.find?_some hE
        simpa using this
      | none =>
        cases hS : getSectionByParent st d.ParentId with
        | some s =>
          simp only [rPass, hE, hS]
          exact ⟨_, (rPass_spec rest (createRoomSt st d (some s.id) s.floorId)).2 _
            (List.mem_append_right _ (List.mem_singleton.mpr rfl)), rfl⟩
        | none =>
          cases hF : getFloorByParent st d.ParentId with
          | some f =>
            simp only [rPass, hE, hS, hF]
            exact ⟨_, (rPass_spec rest (createRoomSt st d none (some f.id))).2 _
              (List.mem_append_right _ (List.mem_singleton.mpr rfl)), rfl⟩
          | none =>
            simp only [rPass, hE, hS, hF]
            exact ⟨_, (rPass_spec rest (createRoomSt st d none none)).2 _
              (List.mem_append_right _ (List.mem_singleton.mpr rfl)), rfl⟩
    · cases hE : getRoomByPlaceId st d0.PlaceId with
      | some r0 =>
        simp only [rPass, hE]
        exact ih st d hdr
      | none =>
        cases hS : getSectionByParent st d0.ParentId with
        | some s =>
          simp only [rPass, hE, hS]
          exact ih (createRoomSt st d0 (some s.id) s.floorId) d hdr
        | none =>
          cases hF : getFloorByParent st d0.ParentId with
          | some f =>
            simp only [rPass, hE, hS, hF]
            exact ih (createRoomSt st d0 none (some f.id)) d hdr
          | none =>
            simp only [rPass, hE, hS, hF]
            exact ih (createRoomSt st d0 none none) d hdr

/-! A creation pass whose records are all already mirrored (or, for
floors/sections/desks, unresolved) does nothing. -/

theorem bPass_noop : ∀ (bd : List PlaceRecord) (st : Storage),
    (∀ d ∈ bd, getBuildingByPlaceId st d.PlaceId ≠ none) →
    bPass st bd = (st, [], 0) := by
  intro bd
  induction bd with
  | nil => exact fun st _ => rfl
  | cons d rest ih =>
    intro st h
    cases hE : getBuildingByPlaceId st d.PlaceId with
    | none => exact absurd hE (h d (List.mem_cons_self d rest))
    | some b0 =>
      simp only [bPass, hE]
      exact ih st fun x hx => h x (List.mem_cons_of_mem d hx)

theorem fPass_noop : ∀ (fd : List PlaceRecord) (st : Storage),
    (∀ d ∈ fd, getFloorByPlaceId st d.PlaceId ≠ none
      ∨ getBuildingByParent st d.ParentId = none) →
    fPass st fd = (st, [], 0) := by
  intro fd
  induction fd with
  | nil => exact fun st _ => rfl
  | cons d rest ih =>
    intro st h
    cases hE : getFloorByPlaceId st d.PlaceId with
    | some f0 =>
      simp only [fPass, hE]
      exact ih st fun x hx => h x (List.mem_cons_of_mem d hx)
    | none =>
      rcases h d (List.mem_cons_self d rest) with hL | hR
      · exact absurd hE hL
      · simp only [fPass, hE, hR]
        exact ih st fun x hx => h x (List.mem_cons_of_mem d hx)

theorem sPass_noop : ∀ (sd : List PlaceRecord) (st : Storage),
    (∀ d ∈ sd, getSectionByPlaceId st d.PlaceId ≠ none
      ∨ getFloorByParent st d.ParentId = none) →
    sPass st sd = (st, [], 0) := by
  intro sd
  induction sd with
  | nil => exact fun st _ => rfl
  | cons d rest ih =>
    intro st h
    cases hE : getSectionByPlaceId st d.PlaceId with
    | some s0 =>
      simp only [sPass, hE]
      exact ih st fun x hx => h x (List.mem_cons_of_mem d hx)
    | none =>
      rcases h d (List.mem_cons_self d rest) with hL | hR
      · exact absurd hE hL
      · simp only [sPass, hE, hR]
        exact ih st fun x hx => h x (List.mem_cons_of_mem d hx)

theorem dPass_noop : ∀ (dd : List PlaceRecord) (st : Storage),
    (∀ d ∈ dd, getDeskByPlaceId st d.PlaceId ≠ none
      ∨ getSectionByParent st d.ParentId = none) →
    dPass st dd = (st, [], 0) := by
  intro dd
  induction dd with
  | nil => exact fun st _ => rfl
  | cons d rest ih =>
    intro st h
    cases hE : getDeskByPlaceId st d.PlaceId with
    | some x0 =>
      simp only [dPass, hE]
      exact ih st fun x hx => h x (List.mem_cons_of_mem d hx)
    | none =>
      rcases h d (List.mem_cons_self d rest) with hL | hR
      · exact absurd hE hL
      · simp only [dPass, hE, hR]
        exact ih st fun x hx => h x (List.mem_cons_of_mem d hx)

theorem rPass_noop : ∀ (rd : List PlaceRecord) (st : Storage),
    (∀ d ∈ rd, getRoomByPlaceId st d.PlaceId ≠ none) →
    rPass st rd = (st, [], 0) := by
  intro rd
  induction rd with
  | nil => exact fun st _ => rfl
  | cons d rest ih =>
    intro st h
    cases hE : getRoomByPlaceId st d.PlaceId with
    | none => exact absurd hE (h d (List.mem_cons_self d rest))
    | some r0 =>
      simp only [rPass, hE]
      exact ih st fun x hx => h x (List.mem_cons_of_mem d hx)

theorem contains_pid {data : List PlaceRecord} {p : String} (d : PlaceRecord)
    (hd : d ∈ data) (hp : p = d.PlaceId) :
    (data.map fun x => x.PlaceId).contains p = true := by
  subst hp
  simpa [List.contains] using
    List.elem_eq_true_of_mem (List.mem_map_of_mem (fun x => x.PlaceId) hd)

theorem mem_enumFloors {st : Storage} {f : Floor} :
    f ∈ enumFloors st ↔ ∃ b ∈ st.buildings, f ∈ st.floors ∧ f.buildingId = some b.id := by
  simp [enumFloors, List.mem_flatMap, List.mem_filter]

theorem mem_enumSections {st : Storage} {s : Section} :
    s ∈ enumSections st ↔ ∃ f ∈ enumFloors st, s ∈ st.sections ∧ s.floorId = some f.id := by
  simp [enumSections, List.mem_flatMap, List.mem_filter]

theorem mem_enumDesks {st : Storage} {x : Desk} :
    x ∈ enumDesks st ↔ ∃ s ∈ enumSections st, x ∈ st.desks ∧ x.sectionId = some s.id := by
  simp [enumDesks, List.mem_flatMap, List.mem_filter]

theorem mem_enumRooms {st : Storage} {r : Room} :
    r ∈ enumRooms st ↔
      (∃ s ∈ enumSections st, r ∈ st.rooms ∧ r.sectionId = some s.id)
      ∨ ∃ f ∈ enumFloors st, r ∈ st.rooms ∧ r.floorId = some f.id := by
  simp [enumRooms, List.mem_flatMap, List.mem_filter, List.mem_append]

/-- Running the ten refresh passes a second time, on the state produced
by a first run from a well-formed mirror with the same fresh data, makes
every pass a no-op.  The stA..stJ variables name the successive states of
the first run. -/
theorem runTwice_noop
    (bd fd sd dd rd : List PlaceRecord) (st : Storage)
    (stA stB stC stD2 stE stF2 stG stH stI stJ : Storage)
    (hwf : wfStorage st)
    (hA : stA = (delRoomsPass (rd.map fun x => x.PlaceId) st (enumRooms st)).1)
    (hB : stB = (delDesksPass (dd.map fun x => x.PlaceId) stA (enumDesks st)).1)
    (hC : stC = (delSectionsPass (sd.map fun x => x.PlaceId) stB (enumSections st)).1)
    (hD : stD2 = (delFloorsPass (fd.map fun x => x.PlaceId) stC (enumFloors st)).1)
    (hE : stE = (delBuildingsPass (bd.map fun x => x.PlaceId) stD2 st.buildings).1)
    (hF : stF2 = (bPass stE bd).1)
    (hG : stG = (fPass stF2 fd).1)
    (hH : stH = (sPass stG sd).1)
    (hI : stI = (dPass stH dd).1)
    (hJ : stJ = (rPass stI rd).1) :
    delRoomsPass (rd.map fun x => x.PlaceId) stJ (enumRooms stJ) = (stJ, [], 0)
    ∧ delDesksPass (dd.map fun x => x.PlaceId) stJ (enumDesks stJ) = (stJ, [], 0)
    ∧ delSectionsPass (sd.map fun x => x.PlaceId) stJ (enumSections stJ) = (stJ, [], 0)
    ∧ delFloorsPass (fd.map fun x => x.PlaceId) stJ (enumFloors stJ) = (stJ, [], 0)
    ∧ delBuildingsPass (bd.map fun x => x.PlaceId) stJ stJ.buildings = (stJ, [], 0)
    ∧ bPass stJ bd = (stJ, [], 0)
    ∧ fPass stJ fd = (stJ, [], 0)
    ∧ sPass stJ sd = (stJ, [], 0)
    ∧ dPass stJ dd = (stJ, [], 0)
    ∧ rPass stJ rd = (stJ, [], 0) := by
  have A1 : stA.buildings = st.buildings := by
    rw [hA]; exact (delRoomsPass_spec _ _ _).1.1
  have A2 : stA.floors = st.floors := by
    rw [hA]; exact (delRoomsPass_spec _ _ _).1.2.1
  have A3 : stA.sections = st.sections := by
    rw [hA]; exact (delRoomsPass_spec _ _ _).1.2.2.1
  have A4 : stA.desks = st.desks := by
    rw [hA]; exact (delRoomsPass_spec _ _ _).1.2.2.2.1
  have A5 : stA.currentId = st.currentId := by
    rw [hA]; exact (delRoomsPass_spec _ _ _).1.2.2.2.2
  have Amem : ∀ r ∈ stA.rooms, r ∈ st.rooms ∧ (r ∈ enumRooms st →
      (rd.map fun x => x.PlaceId).contains r.placeId = true) := by
    rw [hA]; exact fun r hr => delRoomsPass_mem _ _ _ r hr
  have B1 : stB.buildings = stA.buildings := by
    rw [hB]; exact (delDesksPass_spec _ _ _).1.1
  have B2 : stB.floors = stA.floors := by
    rw [hB]; exact (delDesksPass_spec _ _ _).1.2.1
  have B3 : stB.sections = stA.sections := by
    rw [hB]; exact (delDesksPass_spec _ _ _).1.2.2.1
  have B4 : stB.rooms = stA.rooms := by
    rw [hB]; exact (delDesksPass_spec _ _ _).1.2.2.2.1
  have B5 : stB.currentId = stA.currentId := by
    rw [hB]; exact (delDesksPass_spec _ _ _).1.2.2.2.2
  have Bmem : ∀ x ∈ stB.desks, x ∈ stA.desks ∧ (x ∈ enumDesks st →
      (dd.map fun x => x.PlaceId).contains x.placeId = true) := by
    rw [hB]; exact fun x hx => delDesksPass_mem _ _ _ x hx
  have C1b : stC.buildings = stB.buildings := by
    rw [hC]; exact (delSectionsPass_spec _ _ _).1.1
  have C2f : stC.floors = stB.floors := by
    rw [hC]; exact (delSectionsPass_spec _ _ _).1.2.1
  have C3d : stC.desks = stB.desks := by
    rw [hC]; exact (delSectionsPass_spec _ _ _).1.2.2.1
  have C4r : stC.rooms = stB.rooms := by
    rw [hC]; exact (delSectionsPass_spec _ _ _).1.2.2.2.1
  have C5 : stC.currentId = stB.currentId := by
    rw [hC]; exact (delSectionsPass_spec _ _ _).1.2.2.2.2
  have Cmem : ∀ s ∈ stC.sections, s ∈ stB.sections ∧ (s ∈ enumSections st →
      (sd.map fun x => x.PlaceId).contains s.placeId = true) := by
    rw [hC]; exact fun s hs => delSectionsPass_mem _ _ _ s hs
  have D1 : stD2.buildings = stC.buildings := by
    rw [hD]; exact (delFloorsPass_spec _ _ _).1.1
  have D2s : stD2.sections = stC.sections := by
    rw [hD]; exact (delFloorsPass_spec _ _ _).1.2.1
  have D3 : stD2.desks = stC.desks := by
    rw [hD]; exact (delFloorsPass_spec _ _ _).1.2.2.1
  have D4 : stD2.rooms = stC.rooms := by
    rw [hD]; exact (delFloorsPass_spec _ _ _).1.2.2.2.1
  have D5 : stD2.currentId = stC.currentId := by
    rw [hD]; exact (delFloorsPass_spec _ _ _).1.2.2.2.2
  have Dmem : ∀ f ∈ stD2.floors, f ∈ stC.floors ∧ (f ∈ enumFloors st →
      (fd.map fun x => x.PlaceId).contains f.placeId = true) := by
    rw [hD]; exact fun f hf => delFloorsPass_mem _ _ _ f hf
  have E1 : stE.floors = stD2.floors := by
    rw [hE]; exact (delBuildingsPass_spec _ _ _).1.1
  have E2 : stE.sections = stD2.sections := by
    rw [hE]; exact (delBuildingsPass_spec _ _ _).1.2.1
  have E3 : stE.desks = stD2.desks := by
    rw [hE]; exact (delBuildingsPass_spec _ _ _).1.2.2.1
  have E4 : stE.rooms = stD2.rooms := by
    rw [hE]; exact (delBuildingsPass_spec _ _ _).1.2.2.2.1
  have E5 : stE.currentId = stD2.currentId := by
    rw [hE]; exact (delBuildingsPass_spec _ _ _).1.2.2.2.2
  have Emem : ∀ b ∈ stE.buildings, b ∈ stD2.buildings ∧ (b ∈ st.buildings →
      (bd.map fun x => x.PlaceId).contains b.placeId = true) := by
    rw [hE]; exact fun b hb => delBuildingsPass_mem _ _ _ b hb
  have F1 : stF2.floors = stE.floors := by
    rw [hF]; exact (bPass_spec _ _).1.1
  have F2s : stF2.sections = stE.sections := by
    rw [hF]; exact (bPass_spec _ _).1.2.1
  have F3 : stF2.desks = stE.desks := by
    rw [hF]; exact (bPass_spec _ _).1.2.2.1
  have F4 : stF2.rooms = stE.rooms := by
    rw [hF]; exact (bPass_spec _ _).1.2.2.2.1
  have F5 : stE.currentId ≤ stF2.currentId := by
    rw [hF]; exact (bPass_spec _ _).1.2.2.2.2
  have G1 : stG.buildings = stF2.buildings := by
    rw [hG]; exact (fPass_spec _ _).1.1
  have G2s : stG.sections = stF2.sections := by
    rw [hG]; exact (fPass_spec _ _).1.2.1
  have G3 : stG.desks = stF2.desks := by
    rw [hG]; exact (fPass_spec _ _).1.2.2.1
  have G4 : stG.rooms = stF2.rooms := by
    rw [hG]; exact (fPass_spec _ _).1.2.2.2.1
  have G5 : stF2.currentId ≤ stG.currentId := by
    rw [hG]; exact (fPass_spec _ _).1.2.2.2.2
  have H1 : stH.buildings = stG.buildings := by
    rw [hH]; exact (sPass_spec _ _).1.1
  have H2 : stH.floors = stG.floors := by
    rw [hH]; exact (sPass_spec _ _).1.2.1
  have H3 : stH.desks = stG.desks := by
    rw [hH]; exact (sPass_spec _ _).1.2.2.1
  have H4 : stH.rooms = stG.rooms := by
    rw [hH]; exact (sPass_spec _ _).1.2.2.2.1
  have H5 : stG.currentId ≤ stH.currentId := by
    rw [hH]; exact (sPass_spec _ _).1.2.2.2.2
  have I1 : stI.buildings = stH.buildings := by
    rw [hI]; exact (dPass_spec _ _).1.1
  have I2 : stI.floors = stH.floors := by
    rw [hI]; exact (dPass_spec _ _).1.2.1
  have I3 : stI.sections = stH.sections := by
    rw [hI]; exact (dPass_spec _ _).1.2.2.1
  have I4 : stI.rooms = stH.rooms := by
    rw [hI]; exact (dPass_spec _ _).1.2.2.2.1
  have J1 : stJ.buildings = stI.buildings := by
    rw [hJ]; exact (rPass_spec _ _).1.1
  have J2 : stJ.floors = stI.floors := by
    rw [hJ]; exact (rPass_spec _ _).1.2.1
  have J3 : stJ.sections = stI.sections := by
    rw [hJ]; exact (rPass_spec _ _).1.2.2.1
  have J4 : stJ.desks = stI.desks := by
    rw [hJ]; exact (rPass_spec _ _).1.2.2.2.1
  -- combined equalities
  have EB : stJ.buildings = stF2.buildings := by rw [J1, I1, H1, G1]
  have EF : stJ.floors = stG.floors := by rw [J2, I2, H2]
  have ES : stJ.sections = stH.sections := by rw [J3, I3]
  have ED : stJ.desks = stI.desks := J4
  have ERm : stI.rooms = stA.rooms := by rw [I4, H4, G4, F4, E4, D4, C4r, B4]
  have curE : stE.currentId = st.currentId := by rw [E5, D5, C5, B5, A5]
  have curF : st.currentId ≤ stF2.currentId := by rw [← curE]; exact F5
  have curG : st.currentId ≤ stG.currentId := le_trans curF G5
  have curH : st.currentId ≤ stH.currentId := le_trans curG H5
  -- survivors trace back to the original mirror with fresh placeIds
  have buildingsSurv : ∀ b ∈ stE.buildings, b ∈ st.buildings ∧
      (bd.map fun x => x.PlaceId).contains b.placeId = true := by
    intro b hb
    obtain ⟨hm, hc⟩ := Emem b hb
    rw [D1, C1b, B1, A1] at hm
    exact ⟨hm, hc hm⟩
  have floorsSurv : ∀ f ∈ stF2.floors, f ∈ st.floors ∧ (f ∈ enumFloors st →
      (fd.map fun x => x.PlaceId).contains f.placeId = true) := by
    intro f hf
    rw [F1, E1] at hf
    obtain ⟨hm, hc⟩ := Dmem f hf
    rw [C2f, B2, A2] at hm
    exact ⟨hm, hc⟩
  have sectionsSurv : ∀ s ∈ stG.sections, s ∈ st.sections ∧ (s ∈ enumSections st →
      (sd.map fun x => x.PlaceId).contains s.placeId = true) := by
    intro s hs
    rw [G2s, F2s, E2, D2s] at hs
    obtain ⟨hm, hc⟩ := Cmem s hs
    rw [B3, A3] at hm
    exact ⟨hm, hc⟩
  have desksSurv : ∀ x ∈ stH.desks, x ∈ st.desks ∧ (x ∈ enumDesks st →
      (dd.map fun x => x.PlaceId).contains x.placeId = true) := by
    intro x hx
    rw [H3, G3, F3, E3, D3, C3d] at hx
    obtain ⟨hm, hc⟩ := Bmem x hx
    rw [A4] at hm
    exact ⟨hm, hc⟩
  -- decomposition of second-run rows: pre-existing or freshly allocated id
  have decompB : ∀ b ∈ stJ.buildings, b ∈ st.buildings ∨ st.currentId ≤ b.id := by
    intro b hb
    rw [EB, hF] at hb
    rcases bPass_buildings_mem bd stE b hb with h | ⟨d, hd, hpid, hcur⟩
    · exact Or.inl (buildingsSurv b h).1
    · exact Or.inr (curE ▸ hcur)
  have decompF : ∀ f ∈ stJ.floors, f ∈ st.floors ∨ st.currentId ≤ f.id := by
    intro f hf
    rw [EF, hG] at hf
    rcases fPass_floors_mem fd stF2 f hf with h | ⟨d, hd, hpid, hpar, hcur⟩
    · exact Or.inl (floorsSurv f h).1
    · exact Or.inr (le_trans curF hcur)
  have decompS : ∀ s ∈ stJ.sections, s ∈ st.sections ∨ st.currentId ≤ s.id := by
    intro s hs
    rw [ES, hH] at hs
    rcases sPass_sections_mem sd stG s hs with h | ⟨d, hd, hpid, hpar, hcur⟩
    · exact Or.inl (sectionsSurv s h).1
    · exact Or.inr (le_trans curG hcur)
  -- enumeration transfer: reachable-after rows that existed before were
  -- reachable before (dead pointers cannot be resurrected)
  have TfJ : ∀ f : Floor, f ∈ enumFloors stJ → f ∈ st.floors → f ∈ enumFloors st := by
    intro f hfe hf0
    obtain ⟨b, hbJ, hfJ, hbid⟩ := mem_enumFloors.mp hfe
    rcases decompB b hbJ with hb0 | hbcur
    · exact mem_enumFloors.mpr ⟨b, hb0, hf0, hbid⟩
    · have := hwf.1 f hf0 b.id (Option.mem_def.mpr hbid)
      omega
  have TsJ : ∀ s : Section, s ∈ enumSections stJ → s ∈ st.sections →
      s ∈ enumSections st := by
    intro s hse hs0
    obtain ⟨f, hfe, hsJ, hfid⟩ := mem_enumSections.mp hse
    obtain ⟨b, hbJ, hfJ, hbid⟩ := mem_enumFloors.mp hfe
    rcases decompF f hfJ with hf0 | hfcur
    · exact mem_enumSections.mpr ⟨f, TfJ f hfe hf0, hs0, hfid⟩
    · have := hwf.2.1 s hs0 f.id (Option.mem_def.mpr hfid)
      omega
  -- every second-run snapshot row carries a fresh placeId
  have gB : ∀ b ∈ stJ.buildings,
      (bd.map fun x => x.PlaceId).contains b.placeId = true := by
    intro b hb
    rw [EB, hF] at hb
    rcases bPass_buildings_mem bd stE b hb with h | ⟨d, hd, hpid, _⟩
    · exact (buildingsSurv b h).2
    · exact contains_pid d hd hpid
  have gF : ∀ f ∈ enumFloors stJ,
      (fd.map fun x => x.PlaceId).contains f.placeId = true := by
    intro f hfe
    obtain ⟨b, hbJ, hfJ, hbid⟩ := mem_enumFloors.mp hfe
    rw [EF, hG] at hfJ
    rcases fPass_floors_mem fd stF2 f hfJ with h | ⟨d, hd, hpid, _, _⟩
    · exact (floorsSurv f h).2 (TfJ f hfe (floorsSurv f h).1)
    · exact contains_pid d hd hpid
  have gS : ∀ s ∈ enumSections stJ,
      (sd.map fun x => x.PlaceId).contains s.placeId = true := by
    intro s hse
    obtain ⟨f, hfe, hsJ, hfid⟩ := mem_enumSections.mp hse
    rw [ES, hH] at hsJ
    rcases sPass_sections_mem sd stG s hsJ with h | ⟨d, hd, hpid, _, _⟩
    · exact (sectionsSurv s h).2 (TsJ s hse (sectionsSurv s h).1)
    · exact contains_pid d hd hpid
  have gD : ∀ x ∈ enumDesks stJ,
      (dd.map fun y => y.PlaceId).contains x.placeId = true := by
    intro x hxe
    obtain ⟨s, hse, hxJ, hsid⟩ := mem_enumDesks.mp hxe
    rw [ED, hI] at hxJ
    rcases dPass_desks_mem dd stH x hxJ with h | ⟨d, hd, hpid, _, _⟩
    · obtain ⟨f, hfe, hsJm, hfid⟩ := mem_enumSections.mp hse
      rcases decompS s hsJm with hs0 | hscur
      · exact (desksSurv x h).2
          (mem_enumDesks.mpr ⟨s, TsJ s hse hs0, (desksSurv x h).1, hsid⟩)
      · have := hwf.2.2.1 x (desksSurv x h).1 s.id (Option.mem_def.mpr hsid)
        omega
    · exact contains_pid d hd hpid
  have gR : ∀ r ∈ enumRooms stJ,
      (rd.map fun x => x.PlaceId).contains r.placeId = true := by
    intro r hre
    have hrJ : r ∈ stJ.rooms := by
      rcases mem_enumRooms.mp hre with ⟨s, _, hr, _⟩ | ⟨f, _, hr, _⟩ <;> exact hr
    rw [hJ] at hrJ
    rcases rPass_rooms_mem rd stI r hrJ with h | ⟨d, hd, hpid, _⟩
    · rw [ERm] at h
      obtain ⟨hr0, hc⟩ := Amem r h
      rcases mem_enumRooms.mp hre with ⟨s, hse, _, hsid⟩ | ⟨f, hfe, _, hfid⟩
      · obtain ⟨f2, hfe2, hsJm, _⟩ := mem_enumSections.mp hse
        rcases decompS s hsJm with hs0 | hscur
        · exact hc (mem_enumRooms.mpr (Or.inl ⟨s, TsJ s hse hs0, hr0, hsid⟩))
        · have := (hwf.2.2.2 r hr0).1 s.id (Option.mem_def.mpr hsid)
          omega
      · obtain ⟨b2, hb2, hfJm, _⟩ := mem_enumFloors.mp hfe
        rcases decompF f hfJm with hf0 | hfcur
        · exact hc (mem_enumRooms.mpr (Or.inr ⟨f, TfJ f hfe hf0, hr0, hfid⟩))
        · have := (hwf.2.2.2 r hr0).2 f.id (Option.mem_def.mpr hfid)
          omega
    · exact contains_pid d hd hpid
  -- every fresh record is already mirrored (or still unresolved)
  have cB : ∀ d ∈ bd, getBuildingByPlaceId stJ d.PlaceId ≠ none := by
    intro d hd
    obtain ⟨b, hb, hpid⟩ := bPass_complete bd stE d hd
    have hbJ : b ∈ stJ.buildings := by rw [EB, hF]; exact hb
    exact find?_ne_none_of_mem hbJ (by simp [hpid])
  have cF : ∀ d ∈ fd, getFloorByPlaceId stJ d.PlaceId ≠ none
      ∨ getBuildingByParent stJ d.ParentId = none := by
    intro d hd
    rcases fPass_complete fd stF2 d hd with ⟨f, hf, hpid⟩ | hnone
    · refine Or.inl ?_
      have hfJ : f ∈ stJ.floors := by rw [EF, hG]; exact hf
      exact find?_ne_none_of_mem hfJ (by simp [hpid])
    · refine Or.inr ?_
      rw [getBuildingByParent_eq EB d.ParentId]
      exact hnone
  have cS : ∀ d ∈ sd, getSectionByPlaceId stJ d.PlaceId ≠ none
      ∨ getFloorByParent stJ d.ParentId = none := by
    intro d hd
    rcases sPass_complete sd stG d hd with ⟨s, hs, hpid⟩ | hnone
    · refine Or.inl ?_
      have hsJ : s ∈ stJ.sections := by rw [ES, hH]; exact hs
      exact find?_ne_none_of_mem hsJ (by simp [hpid])
    · refine Or.inr ?_
      rw [getFloorByParent_eq EF d.ParentId]
      exact hnone
  have cD : ∀ d ∈ dd, getDeskByPlaceId stJ d.PlaceId ≠ none
      ∨ getSectionByParent stJ d.ParentId = none := by
    intro d hd
    rcases dPass_complete dd stH d hd with ⟨x, hx, hpid⟩ | hnone
    · refine Or.inl ?_
      have hxJ : x ∈ stJ.desks := by rw [ED, hI]; exact hx
      exact find?_ne_none_of_mem hxJ (by simp [hpid])
    · refine Or.inr ?_
      rw [getSectionByParent_eq ES d.ParentId]
      exact hnone
  have cR : ∀ d ∈ rd, getRoomByPlaceId stJ d.PlaceId ≠ none := by
    intro d hd
    obtain ⟨r, hr, hpid⟩ := rPass_complete rd stI d hd
    have hrJ : r ∈ stJ.rooms := by rw [hJ]; exact hr
    exact find?_ne_none_of_mem hrJ (by simp [hpid])
  exact ⟨delRoomsPass_noop _ _ _ gR, delDesksPass_noop _ _ _ gD,
    delSectionsPass_noop _ _ _ gS, delFloorsPass_noop _ _ _ gF,
    delBuildingsPass_noop _ _ _ gB, bPass_noop _ _ cB, fPass_noop _ _ cF,
    sPass_noop _ _ cS, dPass_noop _ _ cD, rPass_noop _ _ cR⟩

/-- C9: running the refresh twice in a row against an unchanged fetch
outcome is idempotent: starting from a mirror whose foreign keys sit
below the id counter (wfStorage, true of every MemStorage-built state),
the second run returns the same mirror unchanged, with every per-type
created and removed counter zero and an empty mutation trace. -/
theorem refresh_idempotent {bF fF sF dF rF : FetchOutcome} {st : Storage}
    {out : RefreshOut} (hwf : wfStorage st)
    (h : refresh bF fF sF dF rF st = some out) :
    refresh bF fF sF dF rF out.storage = some ⟨out.storage, zeroCounts, []⟩ := by
  unfold refresh at h ⊢
  cases hbc : (bF.exitCode != 0) with
  | true => rw [hbc] at h; simp at h
  | false =>
    rw [hbc] at h
    simp only [Bool.false_eq_true, if_false] at h ⊢
    have hout := Option.some.inj h
    obtain ⟨e1, e2, e3, e4, e5, e6, e7, e8, e9, e10⟩ :=
      runTwice_noop bF.records
        (if (fF.exitCode == 0) = true then fF.records else [])
        (if (sF.exitCode == 0) = true then sF.records else [])
        (if (dF.exitCode == 0) = true then dF.records else [])
        (if (rF.exitCode == 0) = true then rF.records else [])
        st _ _ _ _ _ _ _ _ _ _ hwf rfl rfl rfl rfl rfl rfl rfl rfl rfl rfl
    subst hout
    simp only [e1, e2, e3, e4, e5, e6, e7, e8, e9, e10, List.append_nil,
      List.nil_append]
    rfl

theorem refresh_idempotent_witness :
    refresh idemBF idemFF idemSF idemDF idemRF idemOut.storage
      = some ⟨idemOut.storage, zeroCounts, []⟩ :=
  @refresh_idempotent idemBF idemFF idemSF idemDF idemRF emptyStorage idemOut
    (by simp [wfStorage, emptyStorage]) (by decide)

/-- C1: evaluating the refresh at a mirror holding one building (placeId
b1) and one floor (placeId f1) under it, with a successful Building fetch
returning b1 and a FAILED Floor fetch: the failed fetch is parsed as zero
floors, the deletion pass still runs, and the mirrored floor is deleted
(floorsRemoved = 1, floors table empty), while the building survives.
The claim (and spec 4.5/7) requires the floor rows to be left untouched. -/
theorem refresh_floor_fetch_failure_deletes_floors :
    (refresh ⟨0, [mkRec "b1" none]⟩ ⟨1, []⟩ okEmpty okEmpty okEmpty storageBF).map
        (fun o => (o.storage.floors, o.counts.floorsRemoved, o.storage.buildings))
      = some ([], 1, [bRow1]) := by
  decide

/-- C2 counterexample: a fresh Room whose ParentId resolves to neither a
Section nor a Floor IS created, as an orphan row with null sectionId and
floorId, and is present in the mirror after the refresh — contradicting
the claim that this holds for Rooms like the other types. -/
theorem refresh_orphan_room_created_counterexample :
    (refresh okEmpty okEmpty okEmpty okEmpty ⟨0, [mkRec "r1" (some "nope")]⟩
        emptyStorage).map
        (fun o => o.storage.rooms.map fun r => (r.placeId, r.sectionId, r.floorId))
      = some [("r1", none, none)] := by
  decide

end PlacesMgr
